import Mathlib

set_option autoImplicit false
set_option exponentiation.threshold 4096
set_option maxRecDepth 4000

/-!
DigiBook controller (src/scripts/app.js): navigation and progress tracking.

A shallow embedding of the `DigiBook` class of `src/scripts/app.js`.

Modelling conventions.

* JavaScript primitives are the type `JSVal`.  The numbers held by a `JSVal` are
  the integer-valued ones (`Int`): chapter indexes, content ids and task counters,
  far inside the range in which IEEE doubles are exact; `parseInt` gives `none` for
  `NaN`.
* Arithmetic on scores and the conversion of a string to a number are done on
  IEEE 754 doubles, the type `JSNumber`: a finite double is a sign and a multiple of
  `2^-1074`, and every result is rounded to nearest, ties to even.
* A plain JavaScript object is an association list `JSObject` from property names to
  values, read with `JSObject.get` (absent property = `undefined`) and written with
  `JSObject.set`.  A computed read `o[key]` with a key taken from the URL goes
  through the prototype chain (`JSObject.lookup`).
* Strings are Lean strings; the character level functions work on `String.data`.
* `top.location.hash` is the field `hash` of the controller state; a write through
  the `changeHash` handler updates it and is also recorded in the trace.
* Calls to the collaborators (`pageContent`, `statusBar`, `sideBar`, the xAPI
  trigger of a chapter instance) are recorded in a trace of `Effect`s; they are
  outside `app.js` and do not change the controller state in this model.
* A `TypeError` raised by the code (reading a property of `undefined`, calling an
  absent method) is the flag `threw` of a `Run`, or `none` for `updateChapterProgress`.
-/

namespace DigiBook

/-! ## JavaScript values -/

/-- JavaScript primitive values handled by the controller. -/
inductive JSVal where
  | undef
  | null
  | bool (b : Bool)
  | num (n : Int)
  | str (s : String)
  deriving DecidableEq

/-- Decimal rendering of an integer, as `Number::toString` gives it. -/
def intToString (n : Int) : String :=
  match n with
  | Int.ofNat m => String.mk (Nat.toDigits 10 m)
  | Int.negSucc m => String.mk ('-' :: Nat.toDigits 10 (m + 1))

/-- Abstract operation `ToString`, used by string concatenation `'...' + v`. -/
def JSVal.toStr : JSVal → String
  | .undef => "undefined"
  | .null => "null"
  | .bool true => "true"
  | .bool false => "false"
  | .num n => intToString n
  | .str s => s

/-- Abstract operation `ToBoolean` (truthiness). -/
def JSVal.truthy : JSVal → Bool
  | .undef => false
  | .null => false
  | .bool b => b
  | .num n => n != 0
  | .str s => s != ""

/-- Strict equality `===` on primitives. -/
def JSVal.strictEq (a b : JSVal) : Bool := decide (a = b)

/-- The characters `StrWhiteSpaceChar` of ECMAScript (white space and line terminators). -/
def isJSSpace (c : Char) : Bool :=
  let n := c.toNat
  n == 9 || n == 10 || n == 11 || n == 12 || n == 13 || n == 32 || n == 160 ||
  n == 0x1680 || (0x2000 ≤ n && n ≤ 0x200A) || n == 0x2028 || n == 0x2029 ||
  n == 0x202F || n == 0x205F || n == 0x3000 || n == 0xFEFF

/-- Value of a character as a digit (`0-9`, `a-z`, `A-Z`), if it is one. -/
def digitValue (c : Char) : Option Nat :=
  let n := c.toNat
  if 48 ≤ n ∧ n ≤ 57 then some (n - 48)
  else if 97 ≤ n ∧ n ≤ 122 then some (n - 97 + 10)
  else if 65 ≤ n ∧ n ≤ 90 then some (n - 65 + 10)
  else none

/-- Digit of `c` in the given radix, if `c` is such a digit. -/
def radixDigit (radix : Nat) (c : Char) : Option Nat :=
  match digitValue c with
  | some d => if d < radix then some d else none
  | none => none

/-- The values of the longest leading run of radix digits. -/
def leadingDigits (radix : Nat) : List Char → List Nat
  | [] => []
  | c :: cs =>
    match radixDigit radix c with
    | some d => d :: leadingDigits radix cs
    | none => []

/-- The number denoted by a list of digit values, most significant first. -/
def digitsValue (radix : Nat) (ds : List Nat) : Nat :=
  ds.foldl (fun acc d => acc * radix + d) 0

/-- Drop leading white space. -/
def trimStart : List Char → List Char
  | [] => []
  | c :: cs => if isJSSpace c then trimStart cs else c :: cs

/-- The body of `parseInt(string)` with no radix argument, after `ToString`:
leading white space is skipped, a sign is read, a `0x`/`0X` marker selects radix 16,
and the longest run of digits is converted; `none` is `NaN`. -/
def parseIntChars (cs : List Char) : Option Int :=
  let s := trimStart cs
  let neg : Bool := match s with
    | c :: _ => c == '-'
    | [] => false
  let s1 := match s with
    | c :: r => if c == '+' || c == '-' then r else s
    | [] => s
  let hex : Bool := match s1 with
    | c :: d :: _ => c == '0' && (d == 'x' || d == 'X')
    | _ => false
  let radix := if hex then 16 else 10
  let s2 := if hex then s1.drop 2 else s1
  match leadingDigits radix s2 with
  | [] => none
  | ds => some (if neg then - (digitsValue radix ds : Int) else (digitsValue radix ds : Int))

/-- JavaScript `parseInt(v)`; `none` is `NaN`. -/
def parseInt (v : JSVal) : Option Int := parseIntChars v.toStr.data

/-! ## IEEE 754 doubles -/

/-- An IEEE 754 double.  Every finite double is an integer multiple of `2^-1074`:
`finite negative k` is the number `(-1)^negative * k * 2^-1074`, so that the integer
`n` is `k = |n| * 2^1074` and the two zeros are `finite false 0` and `finite true 0`. -/
inductive JSNumber where
  | finite (negative : Bool) (k : Nat)
  | infinite (negative : Bool)
  | nan
  deriving DecidableEq

/-- Recursion for `floorLog2`: 64 bits at a time, then bit by bit. -/
def log2Fuel : Nat → Nat → Nat
  | 0, _ => 0
  | fuel + 1, n =>
    if n < 2 then 0
    else if 2 ^ 64 ≤ n then log2Fuel fuel (n / 2 ^ 64) + 64
    else log2Fuel fuel (n / 2) + 1

/-- Position of the leading bit of `n`: the largest `l` with `2^l <= n` (0 for 0). -/
def floorLog2 (n : Nat) : Nat := log2Fuel n n

/-- Round the ratio `n / d` (in units of `2^-1074`) to the nearest double, ties to the
even significand: below `2^53` units the doubles are the naturals; from there on the
doubles are the multiples of `2^sh` with a 53-bit quotient. -/
def roundRatio (n d : Nat) : Nat :=
  let sh := if n / d < 2 ^ 53 then 0 else floorLog2 (n / d) - 52
  let step := d * 2 ^ sh
  let m0 := n / step
  let r := n % step
  let m := if 2 * r < step then m0
    else if step < 2 * r then m0 + 1
    else if m0 % 2 = 0 then m0 else m0 + 1
  m * 2 ^ sh

/-- The double of a rounded magnitude: from `2^1024` on the result is infinite. -/
def JSNumber.ofMagnitude (negative : Bool) (k : Nat) : JSNumber :=
  if 2 ^ 2098 ≤ k then .infinite negative else .finite negative k

/-- The double nearest to the rational `n / d` with the given sign. -/
def JSNumber.ofRatio (negative : Bool) (n d : Nat) : JSNumber :=
  JSNumber.ofMagnitude negative (roundRatio (n * 2 ^ 1074) d)

/-- The double nearest to an integer (the integer itself up to `2^53`). -/
def JSNumber.ofInt (n : Int) : JSNumber :=
  JSNumber.ofRatio (decide (n < 0)) n.natAbs 1

/-- Addition of doubles `a + b`: the exact sum, rounded; an exact zero sum is `+0`
unless both operands are `-0`. -/
def JSNumber.add : JSNumber → JSNumber → JSNumber
  | .nan, _ => .nan
  | _, .nan => .nan
  | .infinite s, .infinite t => if s = t then .infinite s else .nan
  | .infinite s, .finite _ _ => .infinite s
  | .finite _ _, .infinite s => .infinite s
  | .finite s a, .finite t b =>
    if s = t then JSNumber.ofMagnitude s (roundRatio (a + b) 1)
    else if a = b then .finite false 0
    else if b < a then JSNumber.ofMagnitude s (roundRatio (a - b) 1)
    else JSNumber.ofMagnitude t (roundRatio (b - a) 1)

/-- A numeric literal denotes the double of that integer. -/
instance (n : Nat) : OfNat JSNumber n := ⟨JSNumber.ofInt n⟩

/-- Numeric equality of doubles: `NaN` equals nothing and the two zeros are equal. -/
def JSNumber.equals : JSNumber → JSNumber → Bool
  | .finite s a, .finite t b => a == b && (a == 0 || s == t)
  | .infinite s, .infinite t => s == t
  | _, _ => false

/-- All characters are digits of the radix (and there is at least one): their value. -/
def allDigits (radix : Nat) (cs : List Char) : Option Nat :=
  if cs = [] then none
  else if (leadingDigits radix cs).length = cs.length then
    some (digitsValue radix (leadingDigits radix cs))
  else none

/-- The production `StrDecimalLiteral` without its sign: `Infinity`, or digits with an
optional fraction and an optional exponent; the denoted value is rounded to a double.
Anything else is `NaN`. -/
def unsignedDecimal (negative : Bool) (cs : List Char) : JSNumber :=
  if cs = "Infinity".data then .infinite negative
  else
    let ip := leadingDigits 10 cs
    let r1 := cs.drop ip.length
    let hasDot : Bool := match r1 with
      | c :: _ => c == '.'
      | [] => false
    let fp := if hasDot then leadingDigits 10 (r1.drop 1) else []
    let r2 := if hasDot then (r1.drop 1).drop fp.length else r1
    if ip = [] ∧ fp = [] then .nan
    else
      let mant := digitsValue 10 (ip ++ fp)
      match r2 with
      | [] => JSNumber.ofRatio negative mant (10 ^ fp.length)
      | e :: r3 =>
        if e == 'e' || e == 'E' then
          let eneg : Bool := match r3 with
            | c :: _ => c == '-'
            | [] => false
          let r4 := match r3 with
            | c :: r => if c == '+' || c == '-' then r else r3
            | [] => r3
          match allDigits 10 r4 with
          | none => .nan
          | some ex =>
            if eneg then JSNumber.ofRatio negative mant (10 ^ (fp.length + ex))
            else if fp.length ≤ ex then
              JSNumber.ofRatio negative (mant * 10 ^ (ex - fp.length)) 1
            else JSNumber.ofRatio negative mant (10 ^ (fp.length - ex))
        else .nan

/-- Abstract operation `StringToNumber`: surrounding white space is trimmed, the empty
string is `0`, `0x`/`0o`/`0b` literals and signed decimal literals are read and rounded
to a double; anything else is `NaN`. -/
def stringToNumber (s : String) : JSNumber :=
  let t := (trimStart (trimStart s.data).reverse).reverse
  match t with
  | [] => .finite false 0
  | c :: r =>
    let marker : Option Nat := match r with
      | d :: _ =>
        if c == '0' && (d == 'x' || d == 'X') then some 16
        else if c == '0' && (d == 'o' || d == 'O') then some 8
        else if c == '0' && (d == 'b' || d == 'B') then some 2
        else none
      | [] => none
    match marker with
    | some radix =>
      (match allDigits radix (r.drop 1) with
       | some n => JSNumber.ofRatio false n 1
       | none => .nan)
    | none =>
      if c == '-' then unsignedDecimal true r
      else if c == '+' then unsignedDecimal false r
      else unsignedDecimal false t

/-- Loose equality `==` on primitives (`a != b` is its negation); a string meets a
number or a boolean through `StringToNumber`. -/
def JSVal.looseEq : JSVal → JSVal → Bool
  | .undef, .undef => true
  | .undef, .null => true
  | .null, .undef => true
  | .null, .null => true
  | .undef, _ => false
  | .null, _ => false
  | _, .undef => false
  | _, .null => false
  | .num a, .num b => a == b
  | .str a, .str b => a == b
  | .bool a, .bool b => a == b
  | .num a, .str b => (stringToNumber b).equals (JSNumber.ofInt a)
  | .str a, .num b => (stringToNumber a).equals (JSNumber.ofInt b)
  | .bool a, .num b => (if a then 1 else 0) == b
  | .num a, .bool b => a == (if b then 1 else 0)
  | .bool a, .str b => (stringToNumber b).equals (JSNumber.ofInt (if a then 1 else 0))
  | .str a, .bool b => (stringToNumber a).equals (JSNumber.ofInt (if b then 1 else 0))

/-! ## Plain objects -/

/-- A plain JavaScript object: own properties in insertion order. -/
abbrev JSObject := List (String × JSVal)

/-- Property read `o[key]`; an absent property reads as `undefined`. -/
def JSObject.get : JSObject → String → JSVal
  | [], _ => .undef
  | (k, v) :: o, key => if k = key then v else JSObject.get o key

/-- Property write `o[key] = v`. -/
def JSObject.set : JSObject → String → JSVal → JSObject
  | [], key, v => [(key, v)]
  | (k, w) :: o, key, v => if k = key then (k, v) :: o else (k, w) :: JSObject.set o key v

/-- The own property names, as `for (key in o)` with `hasOwnProperty` visits them. -/
def JSObject.keys (o : JSObject) : List String := o.map Prod.fst

/-- The property names every plain object inherits from `Object.prototype`. -/
def objectPrototypeNames : List String :=
  ["constructor", "hasOwnProperty", "isPrototypeOf", "propertyIsEnumerable",
   "toLocaleString", "toString", "valueOf", "__proto__", "__defineGetter__",
   "__defineSetter__", "__lookupGetter__", "__lookupSetter__"]

/-- What a property read can yield: a primitive, or one of the objects inherited from
`Object.prototype` (a built-in function, or the prototype itself for `__proto__`). -/
inductive Property where
  | value (v : JSVal)
  | inherited (name : String)
  deriving DecidableEq

/-- Computed property read `o[key]` on a plain object: the own property if there is
one, else the property inherited from `Object.prototype`, else `undefined`. -/
def JSObject.lookup (o : JSObject) (key : String) : Property :=
  if key ∈ o.keys then .value (o.get key)
  else if key ∈ objectPrototypeNames then .inherited key
  else Property.value JSVal.undef

/-- The string an inherited object converts to (`ToPrimitive`): the source text of a
built-in function, as V8 prints it, and `[object Object]` for the prototype. -/
def inheritedSource (name : String) : String :=
  if name = "__proto__" then "[object Object]"
  else if name = "constructor" then "function Object() { [native code] }"
  else "function " ++ name ++ "() { [native code] }"

/-- Loose equality `element == p` of a primitive with the result of a property read.
An object equals no `undefined`, `null` or boolean; it meets a string as its source
text, and a number as the `NaN` that text converts to. -/
def JSVal.looseEqProperty (element : JSVal) (p : Property) : Bool :=
  match p with
  | .value v => element.looseEq v
  | .inherited name =>
    match element with
    | .str s => s == inheritedSource name
    | _ => false

/-! ## Hash codec -/

/-- The call `String.prototype.replace('#', "")`: removes the first `#` only. -/
def removeFirstHash : List Char → List Char
  | [] => []
  | c :: cs => if c = '#' then cs else c :: removeFirstHash cs

/-- Split at every occurrence of a separator character: the first piece and the
remaining pieces (`String.prototype.split` with a one-character separator). -/
def splitAt (sep : Char) : List Char → List Char × List (List Char)
  | [] => ([], [])
  | c :: cs =>
    if c = sep then ([], (splitAt sep cs).1 :: (splitAt sep cs).2)
    else (c :: (splitAt sep cs).1, (splitAt sep cs).2)

/-- The pieces of `String.prototype.split(sep)`. -/
def splitPieces (sep : Char) (cs : List Char) : List (List Char) :=
  (splitAt sep cs).1 :: (splitAt sep cs).2

/-- The assignment `redirObj[argPair[0]] = argPair[1]` of `retrieveHashFromUrl`:
`argPair[1]` is `undefined` when the element has no `=`; assigning a primitive to
`__proto__` of an object literal is ignored by the language. -/
def assignPair (o : JSObject) (el : List Char) : JSObject :=
  let key := String.mk (splitAt '=' el).1
  let value : JSVal := match (splitAt '=' el).2 with
    | [] => .undef
    | v :: _ => .str (String.mk v)
  if key = "__proto__" then o else o.set key value

/-- The object built by `retrieveHashFromUrl` from the value of `top.location.hash`.
The test `redirObj.h5pbookid == self.contentId && redirObj.chapter` guards an inner
`if (!redirObj.chapter) return;` that can never fire, so `redirObj` is always
returned. -/
def retrieveHashFromUrl (hash : String) : JSObject :=
  (splitPieces '&' (removeFirstHash hash.data)).foldl assignPair []

/-! ## Controller state and collaborators -/

/-- Progress status of a chapter shown by the side bar. -/
inductive Status where
  | BLANK
  | STARTED
  | DONE
  deriving DecidableEq

/-- The nested H5P instance of a chapter, as far as the controller uses it:
`getScore`/`getMaxScore` are `none` when the instance does not expose the method
(`typeof ... !== 'function'`) and otherwise hold the number the call returns. -/
structure Instance where
  subContentId : JSVal
  getScore : Option JSNumber
  getMaxScore : Option JSNumber
  deriving DecidableEq

/-- An entry of `sectionInstances`. -/
structure Section where
  subContentId : JSVal
  taskDone : Bool
  deriving DecidableEq

/-- An entry of `this.chapters`.  `inst` is the field `instance`; `maxTasks` is
`none` when the property is not a number (`undefined`). -/
structure Chapter where
  inst : Instance
  completed : Bool
  maxTasks : Option Int
  tasksLeft : Int
  sectionInstances : List Section
  deriving DecidableEq

/-- The options `this.params.behaviour` read by the progress code. -/
structure Behaviour where
  progressIndicators : Bool
  progressAuto : Bool
  deriving DecidableEq

/-- Calls to collaborators and writes to the address bar, in program order. -/
inductive Effect where
  /-- Call `this.pageContent.changeChapter(redirectOnLoad, handler)`. -/
  | pageChangeChapter (redirectOnLoad : Bool) (handler : JSObject)
  /-- Call `this.statusBar.updateStatusBar()`. -/
  | statusBarUpdate
  /-- Assignment `top.location.hash = newHash`. -/
  | hashWrite (newHash : JSVal)
  /-- Call `this.sideBar.setSectionMarker(targetChapter, i)`. -/
  | sectionMarker (targetChapter : Nat) (index : Nat)
  /-- Call `this.sideBar.updateChapterProgressIndicator(targetChapter, status)`. -/
  | chapterIndicator (targetChapter : Nat) (status : Status)
  /-- Call `chapter.instance.triggerXAPIScored(score, maxScore, 'completed')`. -/
  | xapiCompleted (targetChapter : Nat) (score : JSNumber) (maxScore : JSNumber)
  deriving DecidableEq

/-- Result of running a handler: final state, trace, and whether a `TypeError`
ended it early. -/
structure Run (σ : Type) where
  state : σ
  trace : List Effect
  threw : Bool

/-- The fields of the `DigiBook` instance used by navigation. -/
structure Controller where
  contentId : JSVal
  activeChapter : Int
  newHandler : JSObject
  animationInProgress : Bool
  hash : String
  behaviour : Behaviour
  chapters : List Chapter

/-! ## Aggregate score -/

/-- The method `getScore`: a left fold over the chapters from `0`, adding doubles. -/
def getScore (chapters : List Chapter) : JSNumber :=
  chapters.foldl (fun accu current =>
    match current.inst.getScore with
    | some s => accu.add s
    | none => accu) (.finite false 0)

/-- The method `getMaxScore`: a left fold over the chapters from `0`, adding doubles. -/
def getMaxScore (chapters : List Chapter) : JSNumber :=
  chapters.foldl (fun accu current =>
    match current.inst.getMaxScore with
    | some s => accu.add s
    | none => accu) (.finite false 0)

/-! ## Navigation -/

/-- The method `setActiveChapter`: stores `parseInt(input)` unless it is `NaN`. -/
def setActiveChapter (st : Controller) (input : JSVal) : Controller :=
  match parseInt input with
  | some number => { st with activeChapter := number }
  | none => st

/-- The method `isCurrentHashSameAsRedirect`.  The loop visits the own keys of the
decoded current hash `temp`; its first statement calls `temp.hasOwnProperty(key)`,
which raises a `TypeError` (`none`) when the hash itself has a key `hasOwnProperty`,
whose value is then a string or `undefined`.  Otherwise the result is `true` exactly
when no key carries a value `!=` to `hashObj[key]`, a read through the prototype chain
of `hashObj`. -/
def isCurrentHashSameAsRedirect (hash : String) (hashObj : JSObject) : Option Bool :=
  let temp := retrieveHashFromUrl hash
  if "hasOwnProperty" ∈ temp.keys then none
  else some (temp.keys.all (fun key => (temp.get key).looseEqProperty (hashObj.lookup key)))

/-- The string `event.data.newHash` built by the `newChapter` handler from the
handler object. -/
def buildNewHash (newHandler : JSObject) : String :=
  let idString := "h5pbookid=" ++ (newHandler.get "h5pbookid").toStr
  let chapterString := "&chapter=" ++ (newHandler.get "chapter").toStr
  let sectionString :=
    if newHandler.get "section" = JSVal.undef then ""
    else "&section=" ++ (newHandler.get "section").toStr
  "#" ++ idString ++ chapterString ++ sectionString

/-- The object `event.data` after the `newChapter` handler has marked it
(`redirectFromComponent = true`) and attached `newHash`; `this.newHandler` is the
same object. -/
def stampRequest (data : JSObject) : JSObject :=
  let newHandler := data.set "redirectFromComponent" (.bool true)
  newHandler.set "newHash" (.str (buildNewHash newHandler))

/-- Value read back from `top.location.hash` after assigning `s` to it: the fragment
with its leading `#`, or the empty string for an empty fragment. -/
def assignHash (s : String) : String :=
  match s.data with
  | [] => ""
  | c :: r => if c = '#' then (if r = [] then "" else s) else String.mk ('#' :: c :: r)

/-- The `changeHash` handler: writes the address bar only for this book. -/
def changeHash (st : Controller) (data : JSObject) : Run Controller :=
  if (data.get "h5pbookid").strictEq st.contentId then
    ⟨{ st with hash := assignHash (data.get "newHash").toStr },
      [Effect.hashWrite (data.get "newHash")], false⟩
  else ⟨st, [], false⟩

/-- The `newChapter` handler with `event.data = data`. -/
def newChapter (st : Controller) (data : JSObject) : Run Controller :=
  if st.animationInProgress then ⟨st, [], false⟩
  else
    let data1 := stampRequest data
    let st1 := { st with newHandler := data1 }
    if (data1.get "chapter").strictEq (.num st1.activeChapter) then
      match isCurrentHashSameAsRedirect st1.hash data1 with
      | none => ⟨st1, [], true⟩
      | some true => ⟨st1, [Effect.pageChangeChapter false data1], false⟩
      | some false => changeHash st1 data1
    else changeHash st1 data1

/-- The method `changeChapter(redirectOnLoad)`. -/
def changeChapter (st : Controller) (redirectOnLoad : Bool) : Run Controller :=
  ⟨{ st with newHandler := st.newHandler.set "redirectFromComponent" (.bool false) },
    [Effect.pageChangeChapter redirectOnLoad st.newHandler, Effect.statusBarUpdate], false⟩

/-- The test `v.h5pbookid && parseInt(v.h5pbookid) === self.contentId` on the value
`v.h5pbookid`. -/
def belongsToBook (h5pbookid : JSVal) (contentId : JSVal) : Bool :=
  h5pbookid.truthy &&
    (match parseInt h5pbookid with
     | some n => (JSVal.num n).strictEq contentId
     | none => false)

/-- The method `redirectChapter(event)`.  `self.h5pbookid` is never assigned in the
class and reads as `undefined`. -/
def redirectChapter (st : Controller) (event : JSObject) : Run Controller :=
  if !(st.newHandler.get "redirectFromComponent").truthy then
    if belongsToBook (event.get "h5pbookid") st.contentId then
      changeChapter { st with newHandler := event } false
    else
      match st.chapters with
      | [] => ⟨st, [], true⟩
      | first :: _ =>
        changeChapter
          { st with newHandler := [("chapter", first.inst.subContentId), ("h5pbookid", .undef)] }
          false
  else changeChapter st false

/-- The `respondChangeHash` handler (fired on `hashchange`). -/
def respondChangeHash (st : Controller) : Run Controller :=
  let payload := retrieveHashFromUrl st.hash
  if belongsToBook (payload.get "h5pbookid") st.contentId then redirectChapter st payload
  else ⟨st, [], false⟩

/-! ## Progress tracking -/

/-- The local variable `status` of `updateChapterProgress`. -/
def chapterStatus (chapter : Chapter) (hasChangedChapter : Bool) : Status :=
  match chapter.maxTasks with
  | some maxTasks =>
    if maxTasks ≠ 0 then
      if chapter.tasksLeft = maxTasks then Status.BLANK
      else if chapter.tasksLeft = 0 then Status.DONE
      else Status.STARTED
    else if hasChangedChapter then Status.DONE
    else Status.BLANK
  | none => Status.DONE

/-- The part of `updateChapterProgress` after `const chapter = ...`: `none` when
`chapter.instance.getScore()` or `getMaxScore()` is called on an instance without
the method. -/
def reportProgress (targetChapter : Nat) (chapter : Chapter) (hasChangedChapter : Bool) :
    Option (List Effect) :=
  let status := chapterStatus chapter hasChangedChapter
  if status = Status.DONE then
    match chapter.inst.getScore, chapter.inst.getMaxScore with
    | some score, some maxScore =>
      some [Effect.xapiCompleted targetChapter score maxScore,
            Effect.chapterIndicator targetChapter status]
    | _, _ => none
  else some [Effect.chapterIndicator targetChapter status]

/-- The method `updateChapterProgress(targetChapter, hasChangedChapter)`; `none` is a
`TypeError` (no such chapter, or a missing score method), raised before any call. -/
def updateChapterProgress (b : Behaviour) (chapters : List Chapter) (targetChapter : Nat)
    (hasChangedChapter : Bool) : Option (List Effect) :=
  if !b.progressIndicators || !b.progressAuto then some []
  else
    match chapters[targetChapter]? with
    | none => none
    | some chapter => reportProgress targetChapter chapter hasChangedChapter

/-- State of the `for` loop of `setSectionStatusByID` restricted to the target chapter. -/
structure LoopResult where
  sections : List Section
  tasksLeft : Int
  trace : List Effect
  threw : Bool

/-- The `for` loop of `setSectionStatusByID` from index `i` on: `todo` is
`sectionInstances[i..]` and `tasksLeft` the current counter of the chapter.  The
nested `updateChapterProgress(targetChapter)` reads the chapter with the counter
already decremented. -/
def sectionLoop (b : Behaviour) (targetId : JSVal) (targetChapter : Nat) (chapter : Chapter) :
    Nat → List Section → Int → LoopResult
  | _, [], tasksLeft => ⟨[], tasksLeft, [], false⟩
  | i, element :: rest, tasksLeft =>
    if element.subContentId.strictEq targetId && !element.taskDone then
      let marked : Section := { element with taskDone := true }
      let progress : Option (List Effect) :=
        if b.progressAuto then
          if !b.progressIndicators || !b.progressAuto then some []
          else reportProgress targetChapter { chapter with tasksLeft := tasksLeft - 1 } false
        else some []
      match progress with
      | none => ⟨marked :: rest, tasksLeft - 1, [Effect.sectionMarker targetChapter i], true⟩
      | some effs =>
        let r := sectionLoop b targetId targetChapter chapter (i + 1) rest (tasksLeft - 1)
        ⟨marked :: r.sections, r.tasksLeft,
          Effect.sectionMarker targetChapter i :: (effs ++ r.trace), r.threw⟩
    else
      let r := sectionLoop b targetId targetChapter chapter (i + 1) rest tasksLeft
      ⟨element :: r.sections, r.tasksLeft, r.trace, r.threw⟩

/-- The method `setSectionStatusByID(targetId, targetChapter)` on the chapter list. -/
def setSectionStatusByID (b : Behaviour) (chapters : List Chapter) (targetId : JSVal)
    (targetChapter : Nat) : Run (List Chapter) :=
  match chapters[targetChapter]? with
  | none => ⟨chapters, [], true⟩
  | some chapter =>
    let r := sectionLoop b targetId targetChapter chapter 0 chapter.sectionInstances
      chapter.tasksLeft
    ⟨chapters.set targetChapter
        { chapter with sectionInstances := r.sections, tasksLeft := r.tasksLeft },
      r.trace, r.threw⟩

/-! ## Specification-side vocabulary -/

/-- The expected status as the specification words it: a positive `maxTasks`, a zero
`maxTasks`, an unknown `maxTasks`.  The specification says nothing about a negative
`maxTasks` (`none`). -/
def specStatus (maxTasks : Option Int) (tasksLeft : Int) (hasJustChangedChapter : Bool) :
    Option Status :=
  match maxTasks with
  | none => some Status.DONE
  | some m =>
    if 0 < m then
      some (if tasksLeft = m then Status.BLANK
            else if tasksLeft = 0 then Status.DONE else Status.STARTED)
    else if m = 0 then some (if hasJustChangedChapter then Status.DONE else Status.BLANK)
    else none

/-- Is the effect a "chapter completed" scored report? -/
def Effect.isCompletedReport : Effect → Bool
  | .xapiCompleted _ _ _ => true
  | _ => false

/-- Is the effect a write to the address bar? -/
def Effect.isHashWrite : Effect → Bool
  | .hashWrite _ => true
  | _ => false

/-- Is the effect a call of `pageContent.changeChapter`? -/
def Effect.isPageCall : Effect → Bool
  | .pageChangeChapter _ _ => true
  | _ => false

/-- The trace of a sequence of `updateChapterProgress(targetChapter, flag)` calls, one
per flag; a call that raises contributes nothing. -/
def runUpdates (b : Behaviour) (chapters : List Chapter) (targetChapter : Nat) :
    List Bool → List Effect
  | [] => []
  | flag :: rest =>
    (match updateChapterProgress b chapters targetChapter flag with
     | some effs => effs
     | none => []) ++ runUpdates b chapters targetChapter rest

/-- Number of sections that carry the id `targetId` and are not yet done. -/
def pendingFor (targetId : JSVal) (sections : List Section) : Nat :=
  (sections.filter (fun e => e.subContentId.strictEq targetId && !e.taskDone)).length

/-- Number of sections that are not yet done. -/
def undone (sections : List Section) : Nat :=
  (sections.filter (fun e => !e.taskDone)).length

/-- A sequence of completion events, each handled by `setSectionStatusByID`; the state
reached by one call (also by one that raised) is the state the next call starts from. -/
def runCompletions (b : Behaviour) (chapters : List Chapter) : List (JSVal × Nat) → List Chapter
  | [] => chapters
  | call :: rest =>
    runCompletions b (setSectionStatusByID b chapters call.1 call.2).state rest

/-- Field-by-field comparison of a decoded hash with a request over the navigation
fields the specification names (`h5pbookid`, `chapter`, `section`). -/
def sameNavigationFields (decoded request : JSObject) : Bool :=
  ["h5pbookid", "chapter", "section"].all
    (fun key => (decoded.get key).looseEq (request.get key))

/-- The integer a double denotes, if it is one of `0, 1, -1, 2, -2, ...` (`+0` for 0). -/
def JSNumber.integerValue : JSNumber → Option Int
  | .finite negative k =>
    if k % 2 ^ 1074 = 0 ∧ (k = 0 → negative = false) then
      some (if negative then - ((k / 2 ^ 1074 : Nat) : Int) else ((k / 2 ^ 1074 : Nat) : Int))
    else none
  | _ => none

/-- The integer score an optional method result denotes, if any. -/
def scoreValue (result : Option JSNumber) : Option Int :=
  result.bind JSNumber.integerValue

/-- A field value whose string form holds neither of the separators of the fragment
format; only a string value can hold one. -/
def separatorFree (v : JSVal) : Prop :=
  match v with
  | .str s => '&' ∉ s.data ∧ '=' ∉ s.data
  | _ => True

/-- A value the hash decoder can store: `undefined` or a string. -/
def JSVal.isDecoded : JSVal → Prop
  | .undef => True
  | .str _ => True
  | _ => False

/-- The decoded `h5pbookid` is present and parses to the controller's `contentId`. -/
def parsesToContentId (decoded : JSObject) (contentId : JSVal) : Prop :=
  ∃ (s : String) (n : Int),
    decoded.get "h5pbookid" = JSVal.str s ∧ parseInt (JSVal.str s) = some n ∧
    contentId = JSVal.num n

/-- Is the effect a call of `sideBar.setSectionMarker`? -/
def Effect.isSectionMarker : Effect → Bool
  | .sectionMarker _ _ => true
  | _ => false

/-- How a chapter may differ after completion events: `maxTasks` is kept, and the counter
has dropped by exactly the number of sections that became done. -/
def Chapter.advancedTo (c d : Chapter) : Prop :=
  d.maxTasks = c.maxTasks ∧
  d.tasksLeft + (undone c.sectionInstances : Int) =
    c.tasksLeft + (undone d.sectionInstances : Int) ∧
  undone d.sectionInstances ≤ undone c.sectionInstances

/-! ## Doubles: exact additions -/

theorem log2Fuel_lt (fuel : Nat) : ∀ (n k : Nat), 0 < n → n < 2 ^ k → log2Fuel fuel n < k := by
  induction fuel with
  | zero =>
    intro n k hn hk
    cases k with
    | zero => simp at hk; omega
    | succ k => simp [log2Fuel]
  | succ f ih =>
    intro n k hn hk
    have hk1 : 0 < k := by
      cases k with
      | zero => simp at hk; omega
      | succ k => omega
    rw [log2Fuel]
    by_cases h2 : n < 2
    · simp [h2, hk1]
    · rw [if_neg h2]
      by_cases h64 : 2 ^ 64 ≤ n
      · rw [if_pos h64]
        have hk64 : 64 < k := by
          by_contra hle
          have : (2 : Nat) ^ k ≤ 2 ^ 64 := Nat.pow_le_pow_right (by decide) (by omega)
          omega
        have hdiv : n / 2 ^ 64 < 2 ^ (k - 64) := by
          apply Nat.div_lt_of_lt_mul
          rw [← Nat.pow_add]
          have : 64 + (k - 64) = k := by omega
          rw [this]
          exact hk
        have hpos : 0 < n / 2 ^ 64 := Nat.div_pos h64 (Nat.two_pow_pos _)
        have := ih (n / 2 ^ 64) (k - 64) hpos hdiv
        omega
      · rw [if_neg h64]
        have hdiv : n / 2 < 2 ^ (k - 1) := by
          apply Nat.div_lt_of_lt_mul
          have : 2 * 2 ^ (k - 1) = 2 ^ k := by
            rw [← Nat.pow_succ']
            congr 1
            omega
          rw [this]
          exact hk
        have hpos : 0 < n / 2 := by omega
        have := ih (n / 2) (k - 1) hpos hdiv
        omega

theorem roundRatio_of_dvd (n sh : Nat)
    (hsh : (if n / 1 < 2 ^ 53 then 0 else floorLog2 (n / 1) - 52) = sh) (hdvd : 2 ^ sh ∣ n) :
    roundRatio n 1 = n := by
  unfold roundRatio
  simp only [hsh, Nat.one_mul]
  have hpos : 0 < 2 ^ sh := Nat.two_pow_pos sh
  have hr : n % 2 ^ sh = 0 := Nat.mod_eq_zero_of_dvd hdvd
  rw [hr]
  simp only [Nat.mul_zero, hpos, if_true]
  exact Nat.div_mul_cancel hdvd

theorem roundRatio_exact (m : Nat) (hm : m ≤ 2 ^ 53) :
    roundRatio (m * 2 ^ 1074) 1 = m * 2 ^ 1074 := by
  apply roundRatio_of_dvd (m * 2 ^ 1074) _ rfl
  rw [Nat.div_one]
  by_cases hlt : m * 2 ^ 1074 < 2 ^ 53
  · rw [if_pos hlt]
    simp
  · rw [if_neg hlt]
    have hmpos : 0 < m := by
      rcases Nat.eq_zero_or_pos m with h | h
      · subst h
        exact absurd (by simp : 0 * 2 ^ 1074 < 2 ^ 53) hlt
      · exact h
    have hnpos : 0 < m * 2 ^ 1074 := Nat.mul_pos hmpos (Nat.two_pow_pos _)
    rcases Nat.lt_or_eq_of_le hm with hlt53 | heq
    · have hb : m * 2 ^ 1074 < 2 ^ 1127 := by
        have : (2 : Nat) ^ 1127 = 2 ^ 53 * 2 ^ 1074 := by rw [← Nat.pow_add]
        rw [this]
        exact Nat.mul_lt_mul_of_pos_right hlt53 (Nat.two_pow_pos _)
      have hl := log2Fuel_lt (m * 2 ^ 1074) (m * 2 ^ 1074) 1127 hnpos hb
      have hsh : floorLog2 (m * 2 ^ 1074) - 52 ≤ 1074 := by
        unfold floorLog2
        omega
      exact Dvd.dvd.mul_left (Nat.pow_dvd_pow 2 hsh) m
    · have hb : m * 2 ^ 1074 < 2 ^ 1128 := by
        have : (2 : Nat) ^ 1128 = 2 ^ 54 * 2 ^ 1074 := by rw [← Nat.pow_add]
        rw [this, heq]
        exact Nat.mul_lt_mul_of_pos_right (by decide) (Nat.two_pow_pos _)
      have hl := log2Fuel_lt (m * 2 ^ 1074) (m * 2 ^ 1074) 1128 hnpos hb
      have hsh : floorLog2 (m * 2 ^ 1074) - 52 ≤ 1127 := by
        unfold floorLog2
        omega
      have hn : m * 2 ^ 1074 = 2 ^ 1127 := by
        rw [heq, ← Nat.pow_add]
      rw [hn] at hsh ⊢
      exact Nat.pow_dvd_pow 2 hsh

theorem ofMagnitude_small (negative : Bool) (m : Nat) (hm : m ≤ 2 ^ 53) :
    JSNumber.ofMagnitude negative (m * 2 ^ 1074) = JSNumber.finite negative (m * 2 ^ 1074) := by
  unfold JSNumber.ofMagnitude
  have hb : m * 2 ^ 1074 < 2 ^ 2098 := by
    have h1 : m * 2 ^ 1074 ≤ 2 ^ 53 * 2 ^ 1074 := Nat.mul_le_mul_right _ hm
    have h2 : (2 : Nat) ^ 53 * 2 ^ 1074 < 2 ^ 2098 := by
      rw [← Nat.pow_add]
      exact Nat.pow_lt_pow_right (by decide) (by decide)
    omega
  rw [if_neg (by omega)]

theorem ofInt_exact (n : Int) (hn : n.natAbs ≤ 2 ^ 53) :
    JSNumber.ofInt n = JSNumber.finite (decide (n < 0)) (n.natAbs * 2 ^ 1074) := by
  unfold JSNumber.ofInt JSNumber.ofRatio
  rw [roundRatio_exact _ hn, ofMagnitude_small _ _ hn]

theorem ofInt_of_magnitude (negative : Bool) (m : Nat) (n : Int)
    (hs : decide (n < 0) = negative) (hm : n.natAbs = m) :
    JSNumber.ofMagnitude negative (roundRatio (m * 2 ^ 1074) 1) = JSNumber.ofInt n := by
  unfold JSNumber.ofInt JSNumber.ofRatio
  rw [hs, hm]

theorem add_ofInt (a b : Int) (ha : a.natAbs ≤ 2 ^ 53) (hb : b.natAbs ≤ 2 ^ 53) :
    (JSNumber.ofInt a).add (JSNumber.ofInt b) = JSNumber.ofInt (a + b) := by
  rw [ofInt_exact a ha, ofInt_exact b hb]
  have hU : 0 < 2 ^ 1074 := Nat.two_pow_pos 1074
  simp only [JSNumber.add]
  by_cases hs : decide (a < 0) = decide (b < 0)
  · rw [if_pos hs, ← Nat.add_mul]
    apply ofInt_of_magnitude
    · by_cases h1 : a < 0 <;> by_cases h2 : b < 0 <;> simp [h1, h2] at hs ⊢ <;> omega
    · by_cases h1 : a < 0 <;> by_cases h2 : b < 0 <;> simp [h1, h2] at hs <;> omega
  · rw [if_neg hs]
    by_cases he : a.natAbs * 2 ^ 1074 = b.natAbs * 2 ^ 1074
    · rw [if_pos he]
      have hab : a.natAbs = b.natAbs := Nat.eq_of_mul_eq_mul_right hU he
      have h0 : a + b = 0 := by
        by_cases h1 : a < 0 <;> by_cases h2 : b < 0 <;> simp [h1, h2] at hs <;> omega
      rw [h0]
      exact (ofInt_exact 0 (by decide)).symm
    · rw [if_neg he]
      have hab : a.natAbs ≠ b.natAbs := fun h => he (by rw [h])
      by_cases hlt : b.natAbs * 2 ^ 1074 < a.natAbs * 2 ^ 1074
      · rw [if_pos hlt, ← Nat.sub_mul]
        have hlt2 : b.natAbs < a.natAbs := Nat.lt_of_mul_lt_mul_right hlt
        apply ofInt_of_magnitude
        · by_cases h1 : a < 0 <;> by_cases h2 : b < 0 <;> simp [h1, h2] at hs ⊢ <;> omega
        · by_cases h1 : a < 0 <;> by_cases h2 : b < 0 <;> simp [h1, h2] at hs <;> omega
      · rw [if_neg hlt, ← Nat.sub_mul]
        have hlt2 : a.natAbs < b.natAbs := by
          have : ¬ b.natAbs < a.natAbs := fun h =>
            hlt (Nat.mul_lt_mul_of_pos_right h hU)
          omega
        apply ofInt_of_magnitude
        · by_cases h1 : a < 0 <;> by_cases h2 : b < 0 <;> simp [h1, h2] at hs ⊢ <;> omega
        · by_cases h1 : a < 0 <;> by_cases h2 : b < 0 <;> simp [h1, h2] at hs <;> omega

theorem fold_add_ofInt (f : Chapter → Option JSNumber) (chapters : List Chapter) :
    ∀ (a : Int),
      (∀ c ∈ chapters, f c = (scoreValue (f c)).map JSNumber.ofInt) →
      a.natAbs + ((chapters.filterMap (fun c => scoreValue (f c))).map Int.natAbs).sum
        ≤ 2 ^ 53 →
      chapters.foldl (fun accu current =>
        match f current with
        | some s => accu.add s
        | none => accu) (JSNumber.ofInt a) =
      JSNumber.ofInt (a + (chapters.filterMap (fun c => scoreValue (f c))).sum) := by
  induction chapters with
  | nil =>
    intro a _ _
    simp
  | cons c cs ih =>
    intro a hf hb
    have hc := hf c (List.mem_cons_self _ _)
    have hcs : ∀ d ∈ cs, f d = (scoreValue (f d)).map JSNumber.ofInt :=
      fun d hd => hf d (List.mem_cons_of_mem _ hd)
    rw [List.foldl_cons]
    cases hv : scoreValue (f c) with
    | none =>
      rw [hv] at hc
      simp only [Option.map_none'] at hc
      simp only [List.filterMap_cons, hv] at hb ⊢
      simp only [hc]
      exact ih a hcs hb
    | some s =>
      rw [hv] at hc
      simp only [Option.map_some'] at hc
      simp only [List.filterMap_cons, hv, List.map_cons, List.sum_cons] at hb ⊢
      simp only [hc]
      rw [add_ofInt a s (by omega) (by omega)]
      have hle : (a + s).natAbs ≤ a.natAbs + s.natAbs := Int.natAbs_add_le a s
      rw [ih (a + s) hcs (by omega), add_assoc]

theorem fold_from_zero (f : Chapter → Option JSNumber) (chapters : List Chapter)
    (hf : ∀ c ∈ chapters, f c = (scoreValue (f c)).map JSNumber.ofInt)
    (hb : ((chapters.filterMap (fun c => scoreValue (f c))).map Int.natAbs).sum ≤ 2 ^ 53) :
    chapters.foldl (fun accu current =>
      match f current with
      | some s => accu.add s
      | none => accu) (JSNumber.finite false 0) =
    JSNumber.ofInt (chapters.filterMap (fun c => scoreValue (f c))).sum := by
  have h0 : JSNumber.finite false 0 = JSNumber.ofInt 0 := (ofInt_exact 0 (by decide)).symm
  rw [h0, fold_add_ofInt f chapters 0 hf (by simpa using hb)]
  simp

/-! ## C7: aggregate score -/

/-- C7 (counterexample): three chapters scoring 0.1, 0.2 and 0.3.  In this order
`getScore` is 0.6000000000000001, in the reverse order it is 0.6. -/
theorem score_sum_depends_on_order :
    List.Perm
      [⟨⟨.undef, some (JSNumber.ofRatio false 1 10), none⟩, false, none, 0, []⟩,
       ⟨⟨.undef, some (JSNumber.ofRatio false 2 10), none⟩, false, none, 0, []⟩,
       (⟨⟨.undef, some (JSNumber.ofRatio false 3 10), none⟩, false, none, 0, []⟩ : Chapter)]
      [⟨⟨.undef, some (JSNumber.ofRatio false 3 10), none⟩, false, none, 0, []⟩,
       ⟨⟨.undef, some (JSNumber.ofRatio false 2 10), none⟩, false, none, 0, []⟩,
       ⟨⟨.undef, some (JSNumber.ofRatio false 1 10), none⟩, false, none, 0, []⟩] ∧
    getScore
      [⟨⟨.undef, some (JSNumber.ofRatio false 1 10), none⟩, false, none, 0, []⟩,
       ⟨⟨.undef, some (JSNumber.ofRatio false 2 10), none⟩, false, none, 0, []⟩,
       ⟨⟨.undef, some (JSNumber.ofRatio false 3 10), none⟩, false, none, 0, []⟩] =
      JSNumber.ofRatio false 6000000000000001 10000000000000000 ∧
    getScore
      [⟨⟨.undef, some (JSNumber.ofRatio false 3 10), none⟩, false, none, 0, []⟩,
       ⟨⟨.undef, some (JSNumber.ofRatio false 2 10), none⟩, false, none, 0, []⟩,
       ⟨⟨.undef, some (JSNumber.ofRatio false 1 10), none⟩, false, none, 0, []⟩] =
      JSNumber.ofRatio false 6 10 ∧
    JSNumber.ofRatio false 6000000000000001 10000000000000000 ≠ JSNumber.ofRatio false 6 10 := by
  refine ⟨?_, by decide, by decide, by decide⟩
  exact List.reverse_perm
    [⟨⟨.undef, some (JSNumber.ofRatio false 3 10), none⟩, false, none, 0, []⟩,
     ⟨⟨.undef, some (JSNumber.ofRatio false 2 10), none⟩, false, none, 0, []⟩,
     (⟨⟨.undef, some (JSNumber.ofRatio false 1 10), none⟩, false, none, 0, []⟩ : Chapter)]

/-- Integer scores above `2^53` show the same: 2^53, 1, 1 add up to 2^53, and 1, 1, 2^53
add up to 2^53 + 2. -/
theorem score_sum_large_integers :
    getScore
      [⟨⟨.undef, some (JSNumber.ofInt 9007199254740992), none⟩, false, none, 0, []⟩,
       ⟨⟨.undef, some (JSNumber.ofInt 1), none⟩, false, none, 0, []⟩,
       ⟨⟨.undef, some (JSNumber.ofInt 1), none⟩, false, none, 0, []⟩] =
      JSNumber.ofInt 9007199254740992 ∧
    getScore
      [⟨⟨.undef, some (JSNumber.ofInt 1), none⟩, false, none, 0, []⟩,
       ⟨⟨.undef, some (JSNumber.ofInt 1), none⟩, false, none, 0, []⟩,
       ⟨⟨.undef, some (JSNumber.ofInt 9007199254740992), none⟩, false, none, 0, []⟩] =
      JSNumber.ofInt 9007199254740994 ∧
    JSNumber.ofInt 9007199254740992 ≠ JSNumber.ofInt 9007199254740994 := by
  decide

/-- C7 (amended): when every score and maximum score that a chapter instance exposes is
an integer, and the absolute values of the scores, and of the maximum scores, add up to
at most `2^53`, then `getScore` and `getMaxScore` are the sums over exactly the chapter
instances exposing the method (the others contribute 0), and the result is the same for
every permutation of the chapters. -/
theorem score_sum_order_independent (chapters : List Chapter)
    (hs : ∀ c ∈ chapters, c.inst.getScore = (scoreValue c.inst.getScore).map JSNumber.ofInt)
    (hm : ∀ c ∈ chapters,
      c.inst.getMaxScore = (scoreValue c.inst.getMaxScore).map JSNumber.ofInt)
    (hsb : ((chapters.filterMap (fun c => scoreValue c.inst.getScore)).map Int.natAbs).sum
      ≤ 2 ^ 53)
    (hmb : ((chapters.filterMap (fun c => scoreValue c.inst.getMaxScore)).map Int.natAbs).sum
      ≤ 2 ^ 53) :
    getScore chapters =
      JSNumber.ofInt (chapters.filterMap (fun c => scoreValue c.inst.getScore)).sum ∧
    getMaxScore chapters =
      JSNumber.ofInt (chapters.filterMap (fun c => scoreValue c.inst.getMaxScore)).sum ∧
    ∀ reordered : List Chapter, List.Perm chapters reordered →
      getScore reordered = getScore chapters ∧ getMaxScore reordered = getMaxScore chapters := by
  have h1 := fold_from_zero (fun c => c.inst.getScore) chapters hs hsb
  have h2 := fold_from_zero (fun c => c.inst.getMaxScore) chapters hm hmb
  refine ⟨h1, h2, ?_⟩
  intro reordered hp
  have hs2 : ∀ c ∈ reordered,
      c.inst.getScore = (scoreValue c.inst.getScore).map JSNumber.ofInt :=
    fun c hc => hs c (hp.mem_iff.2 hc)
  have hm2 : ∀ c ∈ reordered,
      c.inst.getMaxScore = (scoreValue c.inst.getMaxScore).map JSNumber.ofInt :=
    fun c hc => hm c (hp.mem_iff.2 hc)
  have ps := hp.filterMap (fun c => scoreValue c.inst.getScore)
  have pm := hp.filterMap (fun c => scoreValue c.inst.getMaxScore)
  have hsb2 : ((reordered.filterMap (fun c => scoreValue c.inst.getScore)).map
      Int.natAbs).sum ≤ 2 ^ 53 := by
    rw [← (ps.map Int.natAbs).sum_eq]
    exact hsb
  have hmb2 : ((reordered.filterMap (fun c => scoreValue c.inst.getMaxScore)).map
      Int.natAbs).sum ≤ 2 ^ 53 := by
    rw [← (pm.map Int.natAbs).sum_eq]
    exact hmb
  have h3 := fold_from_zero (fun c => c.inst.getScore) reordered hs2 hsb2
  have h4 := fold_from_zero (fun c => c.inst.getMaxScore) reordered hm2 hmb2
  constructor
  · show getScore reordered = getScore chapters
    unfold getScore
    rw [h3, h1, ps.sum_eq]
  · show getMaxScore reordered = getMaxScore chapters
    unfold getMaxScore
    rw [h4, h2, pm.sum_eq]

/-- Witness for C7 (amended): two scored chapters around one without the methods. -/
theorem score_sum_order_independent_witness :
    getScore [⟨⟨.undef, some (JSNumber.ofInt 3), some (JSNumber.ofInt 5)⟩, false, none, 0, []⟩,
              ⟨⟨.undef, none, none⟩, false, none, 0, []⟩,
              ⟨⟨.undef, some (JSNumber.ofInt 4), some (JSNumber.ofInt 4)⟩, false, none, 0, []⟩]
      = JSNumber.ofInt 7 ∧
    getMaxScore
        [⟨⟨.undef, some (JSNumber.ofInt 3), some (JSNumber.ofInt 5)⟩, false, none, 0, []⟩,
         ⟨⟨.undef, none, none⟩, false, none, 0, []⟩,
         ⟨⟨.undef, some (JSNumber.ofInt 4), some (JSNumber.ofInt 4)⟩, false, none, 0, []⟩]
      = JSNumber.ofInt 9 := by
  have h := score_sum_order_independent
    [⟨⟨.undef, some (JSNumber.ofInt 3), some (JSNumber.ofInt 5)⟩, false, none, 0, []⟩,
     ⟨⟨.undef, none, none⟩, false, none, 0, []⟩,
     ⟨⟨.undef, some (JSNumber.ofInt 4), some (JSNumber.ofInt 4)⟩, false, none, 0, []⟩]
    (by decide) (by decide) (by decide) (by decide)
  exact ⟨h.1.trans (by decide), h.2.1.trans (by decide)⟩

/-! ## C6: at most one transition in flight -/

/-- C6: while `animationInProgress` is set, a `newChapter` request is dropped: the
controller (pending handler, active chapter, URL hash) is unchanged and no collaborator
is called. -/
theorem newChapter_dropped_while_animating (st : Controller) (data : JSObject)
    (h : st.animationInProgress = true) :
    (newChapter st data).state = st ∧ (newChapter st data).trace = [] ∧
    (newChapter st data).threw = false := by
  simp [newChapter, h]

/-- Witness for C6: a request for chapter 2 arriving during an animation. -/
theorem newChapter_dropped_while_animating_witness :
    (newChapter ⟨.num 42, 1, [], true, "#h5pbookid=42&chapter=1", ⟨true, true⟩, []⟩
        [("h5pbookid", .num 42), ("chapter", .num 2)]).trace = [] :=
  (newChapter_dropped_while_animating
    ⟨.num 42, 1, [], true, "#h5pbookid=42&chapter=1", ⟨true, true⟩, []⟩
    [("h5pbookid", .num 42), ("chapter", .num 2)] rfl).2.1

/-! ## C3: chapter status -/

/-- C3: with progress indicators and automatic progress enabled, the status computed
for a chapter is the one the specification gives for a positive, a zero and an unknown
`maxTasks`, and it is the status handed to the side bar (after the completion report
when it is `DONE`). -/
theorem chapter_status_cases (b : Behaviour) (chapters : List Chapter) (targetChapter : Nat)
    (chapter : Chapter) (hasChangedChapter : Bool) (status : Status)
    (hon : b.progressIndicators = true ∧ b.progressAuto = true)
    (hch : chapters[targetChapter]? = some chapter)
    (hspec : specStatus chapter.maxTasks chapter.tasksLeft hasChangedChapter = some status) :
    chapterStatus chapter hasChangedChapter = status ∧
    (status ≠ Status.DONE →
      updateChapterProgress b chapters targetChapter hasChangedChapter =
        some [Effect.chapterIndicator targetChapter status]) ∧
    (status = Status.DONE → ∀ score maxScore : JSNumber,
      chapter.inst.getScore = some score → chapter.inst.getMaxScore = some maxScore →
      updateChapterProgress b chapters targetChapter hasChangedChapter =
        some [Effect.xapiCompleted targetChapter score maxScore,
              Effect.chapterIndicator targetChapter status]) := by
  have hst : chapterStatus chapter hasChangedChapter = status := by
    unfold specStatus at hspec
    unfold chapterStatus
    cases hm : chapter.maxTasks with
    | none => simp [hm] at hspec; simp [hspec]
    | some m =>
      simp only [hm] at hspec
      by_cases hpos : 0 < m
      · have hne : m ≠ 0 := by omega
        simp only [hpos, if_true, Option.some.injEq] at hspec
        simp only [hne, ne_eq, not_false_eq_true, if_true]
        exact hspec
      · by_cases hz : m = 0
        · subst hz
          simpa using hspec
        · simp [hpos, hz] at hspec
  refine ⟨hst, ?_, ?_⟩
  · intro hnd
    simp [updateChapterProgress, hon.1, hon.2, hch, reportProgress, hst, hnd]
  · intro hd score maxScore hs hmx
    simp [updateChapterProgress, hon.1, hon.2, hch, reportProgress, hst, hd, hs, hmx]

/-- Witness for C3: a chapter with two tasks, both completed, is `DONE`. -/
theorem chapter_status_cases_witness :
    chapterStatus ⟨⟨.undef, some (.finite false 0), some (.finite false 0)⟩, false, some 2, 0, []⟩
      false = Status.DONE :=
  (chapter_status_cases ⟨true, true⟩
    [⟨⟨.undef, none, none⟩, false, none, 0, []⟩,
     ⟨⟨.undef, some (.finite false 0), some (.finite false 0)⟩, false, some 2, 0, []⟩] 1
    ⟨⟨.undef, some (.finite false 0), some (.finite false 0)⟩, false, some 2, 0, []⟩ false
    Status.DONE ⟨rfl, rfl⟩ rfl (by decide)).1

/-! ## C10: completion report -/

/-- Every call that computes `DONE` reports, whatever was computed before. -/
theorem runUpdates_count (b : Behaviour) (chapters : List Chapter) (targetChapter : Nat)
    (chapter : Chapter) (score maxScore : JSNumber)
    (hon : b.progressIndicators = true ∧ b.progressAuto = true)
    (hch : chapters[targetChapter]? = some chapter)
    (hs : chapter.inst.getScore = some score) (hm : chapter.inst.getMaxScore = some maxScore)
    (flags : List Bool) :
    ((runUpdates b chapters targetChapter flags).filter Effect.isCompletedReport).length =
      (flags.filter (fun flag => decide (chapterStatus chapter flag = Status.DONE))).length := by
  induction flags with
  | nil => simp [runUpdates]
  | cons flag rest ih =>
    simp only [runUpdates, List.filter_append, List.length_append, ih, List.filter_cons]
    by_cases hd : chapterStatus chapter flag = Status.DONE
    · simp [updateChapterProgress, hon.1, hon.2, hch, reportProgress, hd, hs, hm,
        Effect.isCompletedReport]
      omega
    · simp [updateChapterProgress, hon.1, hon.2, hch, reportProgress, hd,
        Effect.isCompletedReport]

/-- C10 (counterexample): a chapter with two tasks, both completed, is recomputed twice;
the second call, whose previous computed status was already `DONE`, reports again. -/
theorem completion_report_repeated :
    updateChapterProgress ⟨true, true⟩
        [⟨⟨.undef, some 2, some 2⟩, false, some 2, 0, []⟩] 0 false =
      some [Effect.xapiCompleted 0 2 2, Effect.chapterIndicator 0 Status.DONE] ∧
    runUpdates ⟨true, true⟩ [⟨⟨.undef, some 2, some 2⟩, false, some 2, 0, []⟩] 0
        [false, false] =
      [Effect.xapiCompleted 0 2 2, Effect.chapterIndicator 0 Status.DONE,
       Effect.xapiCompleted 0 2 2, Effect.chapterIndicator 0 Status.DONE] := by
  decide

/-- C10 (amended): with automatic progress enabled and a chapter instance exposing the
score methods, the number of completion reports emitted by a sequence of
`updateChapterProgress` calls equals the number of calls that compute `DONE`: one
report per recomputation, whatever the previously computed status was. -/
theorem completion_report_per_recomputation (b : Behaviour) (chapters : List Chapter)
    (targetChapter : Nat) (chapter : Chapter) (score maxScore : JSNumber)
    (hon : b.progressIndicators = true ∧ b.progressAuto = true)
    (hch : chapters[targetChapter]? = some chapter)
    (hs : chapter.inst.getScore = some score) (hm : chapter.inst.getMaxScore = some maxScore)
    (flags : List Bool) :
    ((runUpdates b chapters targetChapter flags).filter Effect.isCompletedReport).length =
      (flags.filter (fun flag => decide (chapterStatus chapter flag = Status.DONE))).length ∧
    ∀ flag : Bool, chapterStatus chapter flag = Status.DONE →
      updateChapterProgress b chapters targetChapter flag =
        some [Effect.xapiCompleted targetChapter score maxScore,
              Effect.chapterIndicator targetChapter Status.DONE] := by
  refine ⟨runUpdates_count b chapters targetChapter chapter score maxScore hon hch hs hm flags,
    ?_⟩
  intro flag hd
  simp [updateChapterProgress, hon.1, hon.2, hch, reportProgress, hd, hs, hm]

/-- Witness for C10 (amended): three recomputations of a completed chapter give three
reports. -/
theorem completion_report_per_recomputation_witness :
    ((runUpdates ⟨true, true⟩ [⟨⟨.undef, some 2, some 2⟩, false, some 2, 0, []⟩] 0
        [false, true, false]).filter Effect.isCompletedReport).length = 3 :=
  (completion_report_per_recomputation ⟨true, true⟩
    [⟨⟨.undef, some 2, some 2⟩, false, some 2, 0, []⟩] 0
    ⟨⟨.undef, some 2, some 2⟩, false, some 2, 0, []⟩ 2 2 ⟨rfl, rfl⟩ rfl rfl rfl
    [false, true, false]).1.trans (by decide)

/-! ## C9: out-of-range chapters -/

/-- C9 (counterexample): a book of three chapters showing chapter 0.  `setActiveChapter(99)`
stores 99, and a `newChapter` request for chapter 99 replaces the pending handler and
rewrites the URL hash. -/
theorem out_of_range_chapter_accepted :
    (setActiveChapter
        ⟨.num 42, 0, [], false, "", ⟨true, true⟩,
          [⟨⟨.undef, none, none⟩, false, none, 0, []⟩,
           ⟨⟨.undef, none, none⟩, false, none, 0, []⟩,
           ⟨⟨.undef, none, none⟩, false, none, 0, []⟩]⟩ (.num 99)).activeChapter = 99 ∧
    (newChapter
        ⟨.num 42, 0, [], false, "", ⟨true, true⟩,
          [⟨⟨.undef, none, none⟩, false, none, 0, []⟩,
           ⟨⟨.undef, none, none⟩, false, none, 0, []⟩,
           ⟨⟨.undef, none, none⟩, false, none, 0, []⟩]⟩
        [("h5pbookid", .num 42), ("chapter", .num 99)]).state.hash
      = "#h5pbookid=42&chapter=99" ∧
    (newChapter
        ⟨.num 42, 0, [], false, "", ⟨true, true⟩,
          [⟨⟨.undef, none, none⟩, false, none, 0, []⟩,
           ⟨⟨.undef, none, none⟩, false, none, 0, []⟩,
           ⟨⟨.undef, none, none⟩, false, none, 0, []⟩]⟩
        [("h5pbookid", .num 42), ("chapter", .num 99)]).state.newHandler
      = [("h5pbookid", .num 42), ("chapter", .num 99), ("redirectFromComponent", .bool true),
         ("newHash", .str "#h5pbookid=42&chapter=99")] := by
  decide

/-- C9 (amended): `setActiveChapter` rejects exactly the inputs that `parseInt` cannot read,
leaving the controller unchanged; an input that parses is stored as `activeChapter`
whatever its range, with the pending handler, the URL hash and the chapters unchanged.
The `newChapter` handler makes no range check either: with no animation in progress it
stores the marked request as pending handler and leaves `activeChapter` unchanged. -/
theorem chapter_accepted_without_range_check (st : Controller) (input : JSVal)
    (data : JSObject) :
    (parseInt input = none → setActiveChapter st input = st) ∧
    (∀ n : Int, parseInt input = some n →
      (setActiveChapter st input).activeChapter = n ∧
      (setActiveChapter st input).newHandler = st.newHandler ∧
      (setActiveChapter st input).hash = st.hash ∧
      (setActiveChapter st input).chapters = st.chapters) ∧
    (st.animationInProgress = false →
      (newChapter st data).state.newHandler = stampRequest data ∧
      (newChapter st data).state.activeChapter = st.activeChapter) := by
  refine ⟨?_, ?_, ?_⟩
  · intro h
    simp [setActiveChapter, h]
  · intro n h
    simp [setActiveChapter, h]
  · intro h
    unfold newChapter
    simp only [h, Bool.false_eq_true, if_false]
    split
    · split
      · exact ⟨rfl, rfl⟩
      · exact ⟨rfl, rfl⟩
      · unfold changeHash
        split <;> exact ⟨rfl, rfl⟩
    · unfold changeHash
      split <;> exact ⟨rfl, rfl⟩

/-- Witness for C9 (amended): the input `"7"` is stored, the input `"abc"` is rejected. -/
theorem chapter_accepted_without_range_check_witness :
    (setActiveChapter ⟨.num 42, 0, [], false, "", ⟨true, true⟩, []⟩ (.str "7")).activeChapter
      = 7 ∧
    (setActiveChapter ⟨.num 42, 0, [], false, "", ⟨true, true⟩, []⟩
      (.str "abc")).activeChapter = 0 :=
  ⟨((chapter_accepted_without_range_check ⟨.num 42, 0, [], false, "", ⟨true, true⟩, []⟩
      (.str "7") []).2.1 7 (by decide)).1,
   congrArg Controller.activeChapter
     ((chapter_accepted_without_range_check ⟨.num 42, 0, [], false, "", ⟨true, true⟩, []⟩
      (.str "abc") []).1 (by decide))⟩

/-! ## C1: hash-change handler -/

theorem mem_set (o : JSObject) (k : String) (v : JSVal) (p : String × JSVal)
    (hp : p ∈ o.set k v) : p ∈ o ∨ p = (k, v) := by
  induction o with
  | nil =>
    simp only [JSObject.set, List.mem_singleton] at hp
    exact Or.inr hp
  | cons q o ih =>
    obtain ⟨k0, w⟩ := q
    simp only [JSObject.set] at hp
    split at hp
    · rename_i hk
      rcases List.mem_cons.1 hp with h | h
      · right; rw [h, hk]
      · left; exact List.mem_cons_of_mem _ h
    · rcases List.mem_cons.1 hp with h | h
      · left; rw [h]; exact List.mem_cons_self _ _
      · rcases ih h with h2 | h2
        · left; exact List.mem_cons_of_mem _ h2
        · right; exact h2

theorem get_undef_or_mem (o : JSObject) (key : String) :
    o.get key = JSVal.undef ∨ ∃ p ∈ o, p.2 = o.get key := by
  induction o with
  | nil => left; rfl
  | cons q o ih =>
    obtain ⟨k0, w⟩ := q
    simp only [JSObject.get]
    split
    · right; exact ⟨(k0, w), List.mem_cons_self _ _, rfl⟩
    · rcases ih with h | ⟨p, hp, hv⟩
      · left; exact h
      · right; exact ⟨p, List.mem_cons_of_mem _ hp, hv⟩

theorem assignPair_isDecoded (o : JSObject) (el : List Char)
    (ho : ∀ p ∈ o, p.2.isDecoded) : ∀ p ∈ assignPair o el, p.2.isDecoded := by
  intro p hp
  unfold assignPair at hp
  simp only at hp
  split at hp
  · exact ho p hp
  · rcases mem_set _ _ _ _ hp with h | h
    · exact ho p h
    · rw [h]
      simp only
      split <;> trivial

theorem foldl_assignPair_isDecoded (pieces : List (List Char)) (o : JSObject)
    (ho : ∀ p ∈ o, p.2.isDecoded) :
    ∀ p ∈ pieces.foldl assignPair o, p.2.isDecoded := by
  induction pieces generalizing o with
  | nil => simpa using ho
  | cons el rest ih =>
    simp only [List.foldl_cons]
    exact ih _ (assignPair_isDecoded o el ho)

theorem retrieveHashFromUrl_isDecoded (hash : String) (key : String) :
    ((retrieveHashFromUrl hash).get key).isDecoded := by
  rcases get_undef_or_mem (retrieveHashFromUrl hash) key with h | ⟨p, hp, hv⟩
  · rw [h]; trivial
  · rw [← hv]
    exact foldl_assignPair_isDecoded _ [] (by simp) p hp

theorem belongsToBook_iff (decoded : JSObject) (contentId : JSVal)
    (hd : (decoded.get "h5pbookid").isDecoded) :
    belongsToBook (decoded.get "h5pbookid") contentId = true ↔
      parsesToContentId decoded contentId := by
  unfold parsesToContentId
  cases hv : decoded.get "h5pbookid" with
  | undef => simp [belongsToBook, JSVal.truthy]
  | null => rw [hv] at hd; exact absurd hd (by simp [JSVal.isDecoded])
  | bool b => rw [hv] at hd; exact absurd hd (by simp [JSVal.isDecoded])
  | num n => rw [hv] at hd; exact absurd hd (by simp [JSVal.isDecoded])
  | str s =>
    constructor
    · intro h
      simp only [belongsToBook, Bool.and_eq_true] at h
      cases hp : parseInt (JSVal.str s) with
      | none => simp [hp] at h
      | some n =>
        simp only [hp, JSVal.strictEq, decide_eq_true_eq] at h
        exact ⟨s, n, rfl, hp, h.2.symm⟩
    · rintro ⟨s2, n, hs, hp, hc⟩
      cases hs
      have hne : s ≠ "" := by
        intro he
        subst he
        have hnone : parseInt (JSVal.str "") = none := by decide
        rw [hnone] at hp
        exact absurd hp (by simp)
      simp [belongsToBook, JSVal.truthy, hp, hc, JSVal.strictEq, hne]

/-- C1: the hash-change handler redirects (calls `pageContent.changeChapter` through
`redirectChapter` with the decoded fragment) exactly when the decoded `h5pbookid` is
present and parses to `contentId`.  Otherwise the controller is unchanged and nothing is
called; when it redirects, the URL hash is not written. -/
theorem respondChangeHash_redirect_iff (st : Controller) :
    ((respondChangeHash st).trace.any Effect.isPageCall = true ↔
      parsesToContentId (retrieveHashFromUrl st.hash) st.contentId) ∧
    (¬ parsesToContentId (retrieveHashFromUrl st.hash) st.contentId →
      (respondChangeHash st).state = st ∧ (respondChangeHash st).trace = [] ∧
      (respondChangeHash st).threw = false) ∧
    (parsesToContentId (retrieveHashFromUrl st.hash) st.contentId →
      respondChangeHash st = redirectChapter st (retrieveHashFromUrl st.hash) ∧
      (respondChangeHash st).threw = false ∧
      (respondChangeHash st).state.hash = st.hash ∧
      (respondChangeHash st).trace.any Effect.isHashWrite = false ∧
      (respondChangeHash st).trace =
        [Effect.pageChangeChapter false
            (if (st.newHandler.get "redirectFromComponent").truthy then st.newHandler
             else retrieveHashFromUrl st.hash),
         Effect.statusBarUpdate]) := by
  have hiff := belongsToBook_iff (retrieveHashFromUrl st.hash) st.contentId
    (retrieveHashFromUrl_isDecoded st.hash "h5pbookid")
  have hno : ¬ parsesToContentId (retrieveHashFromUrl st.hash) st.contentId →
      (respondChangeHash st).state = st ∧ (respondChangeHash st).trace = [] ∧
      (respondChangeHash st).threw = false := by
    intro hn
    have hb : belongsToBook ((retrieveHashFromUrl st.hash).get "h5pbookid") st.contentId
        = false := by
      cases hb : belongsToBook ((retrieveHashFromUrl st.hash).get "h5pbookid") st.contentId
      · rfl
      · exact absurd (hiff.1 hb) hn
    simp [respondChangeHash, hb]
  have hyes : parsesToContentId (retrieveHashFromUrl st.hash) st.contentId →
      respondChangeHash st = redirectChapter st (retrieveHashFromUrl st.hash) ∧
      (respondChangeHash st).threw = false ∧
      (respondChangeHash st).state.hash = st.hash ∧
      (respondChangeHash st).trace.any Effect.isHashWrite = false ∧
      (respondChangeHash st).trace =
        [Effect.pageChangeChapter false
            (if (st.newHandler.get "redirectFromComponent").truthy then st.newHandler
             else retrieveHashFromUrl st.hash),
         Effect.statusBarUpdate] := by
    intro hy
    have hb := hiff.2 hy
    have hr : respondChangeHash st = redirectChapter st (retrieveHashFromUrl st.hash) := by
      simp [respondChangeHash, hb]
    rw [hr]
    refine ⟨rfl, ?_⟩
    unfold redirectChapter
    cases ht : (st.newHandler.get "redirectFromComponent").truthy
    · simp [hb, changeChapter, Effect.isHashWrite]
    · simp [changeChapter, Effect.isHashWrite]
  refine ⟨⟨?_, ?_⟩, hno, hyes⟩
  · intro h
    by_contra hn
    rw [(hno hn).2.1] at h
    simp at h
  · intro hy
    rw [(hyes hy).2.2.2.2]
    simp [Effect.isPageCall]

/-- Witness for C1: for `contentId = 42`, the fragment `#h5pbookid=99&chapter=2` leaves the
controller unchanged with no call, and the fragment `#h5pbookid=42&chapter=2` redirects
with the decoded fragment and without a hash write. -/
theorem respondChangeHash_redirect_iff_witness :
    ((respondChangeHash
        ⟨.num 42, 0, [], false, "#h5pbookid=99&chapter=2", ⟨true, true⟩, []⟩).state.activeChapter
        = 0 ∧
      (respondChangeHash
        ⟨.num 42, 0, [], false, "#h5pbookid=99&chapter=2", ⟨true, true⟩, []⟩).trace = []) ∧
    ((respondChangeHash
        ⟨.num 42, 0, [], false, "#h5pbookid=42&chapter=2", ⟨true, true⟩, []⟩).trace =
        [Effect.pageChangeChapter false [("h5pbookid", .str "42"), ("chapter", .str "2")],
         Effect.statusBarUpdate] ∧
      (respondChangeHash
        ⟨.num 42, 0, [], false, "#h5pbookid=42&chapter=2", ⟨true, true⟩, []⟩).state.hash =
        "#h5pbookid=42&chapter=2") := by
  have h99 := (respondChangeHash_redirect_iff
    ⟨.num 42, 0, [], false, "#h5pbookid=99&chapter=2", ⟨true, true⟩, []⟩).2.1
    (by
      rintro ⟨s, n, hs, hp, hc⟩
      have hs2 : s = "99" := by
        have : JSVal.str "99" = JSVal.str s := hs
        injection this with h
        exact h.symm
      subst hs2
      have hn : n = 99 := by
        have : some (99 : Int) = some n := hp
        injection this with h
        exact h.symm
      subst hn
      exact absurd hc (by decide))
  have h42 := (respondChangeHash_redirect_iff
    ⟨.num 42, 0, [], false, "#h5pbookid=42&chapter=2", ⟨true, true⟩, []⟩).2.2
    ⟨"42", 42, by decide, by decide, rfl⟩
  exact ⟨⟨congrArg Controller.activeChapter h99.1, h99.2.1⟩, h42.2.2.2.2, h42.2.2.1⟩

/-! ## Section completion: the loop of `setSectionStatusByID` -/

theorem pendingFor_cons (targetId : JSVal) (e : Section) (rest : List Section) :
    pendingFor targetId (e :: rest) =
      (if (e.subContentId.strictEq targetId && !e.taskDone) = true then 1 else 0) +
        pendingFor targetId rest := by
  unfold pendingFor
  rw [List.filter_cons]
  split <;> simp [Nat.add_comm]

theorem undone_cons (e : Section) (rest : List Section) :
    undone (e :: rest) = (if e.taskDone = false then 1 else 0) + undone rest := by
  unfold undone
  rw [List.filter_cons]
  cases e.taskDone <;> simp [Nat.add_comm]

theorem reportProgress_no_marker (t : Nat) (c : Chapter) (flag : Bool) (effs : List Effect)
    (h : reportProgress t c flag = some effs) : effs.filter Effect.isSectionMarker = [] := by
  unfold reportProgress at h
  simp only at h
  split at h
  · split at h
    · cases h; rfl
    · cases h
  · cases h; rfl

theorem sectionLoop_counts (b : Behaviour) (targetId : JSVal) (t : Nat) (chapter : Chapter)
    (todo : List Section) : ∀ (i : Nat) (tasksLeft : Int),
    let r := sectionLoop b targetId t chapter i todo tasksLeft
    r.tasksLeft + (pendingFor targetId todo : Int) =
      tasksLeft + (pendingFor targetId r.sections : Int) ∧
    r.tasksLeft + (undone todo : Int) = tasksLeft + (undone r.sections : Int) ∧
    pendingFor targetId r.sections ≤ pendingFor targetId todo ∧
    undone r.sections ≤ undone todo ∧
    (0 < pendingFor targetId todo →
      pendingFor targetId r.sections < pendingFor targetId todo) ∧
    (r.trace.filter Effect.isSectionMarker).length + pendingFor targetId r.sections =
      pendingFor targetId todo := by
  induction todo with
  | nil =>
    intro i tasksLeft
    simp [sectionLoop, pendingFor, undone]
  | cons element rest ih =>
    intro i tasksLeft
    by_cases hm : (element.subContentId.strictEq targetId && !element.taskDone) = true
    · have hdone : element.taskDone = false := by
        simp only [Bool.and_eq_true, Bool.not_eq_true'] at hm
        exact hm.2
      have hpm : ∀ l : List Section,
          pendingFor targetId ({ element with taskDone := true } :: l) =
            pendingFor targetId l := by
        intro l; rw [pendingFor_cons]; simp
      have hum : ∀ l : List Section,
          undone ({ element with taskDone := true } :: l) = undone l := by
        intro l; rw [undone_cons]; simp
      have hp : pendingFor targetId (element :: rest) = 1 + pendingFor targetId rest := by
        rw [pendingFor_cons, if_pos hm]
      have hu : undone (element :: rest) = 1 + undone rest := by
        rw [undone_cons, if_pos hdone]
      have ih2 := ih (i + 1) (tasksLeft - 1)
      simp only at ih2
      obtain ⟨i1, i2, i3, i4, _, i6⟩ := ih2
      rw [sectionLoop, if_pos hm]
      simp only
      split
      · simp only [hpm, hum, hp, hu, List.filter_cons, Effect.isSectionMarker, if_true,
          List.filter_nil, List.length_cons, List.length_nil]
        refine ⟨by omega, by omega, by omega, by omega, fun _ => by omega, trivial⟩
      · rename_i effs heq
        have hnm : effs.filter Effect.isSectionMarker = [] := by
          by_cases ha : b.progressAuto = true
          · simp only [ha, if_true] at heq
            split at heq
            · cases heq; rfl
            · exact reportProgress_no_marker _ _ _ _ heq
          · simp only [ha] at heq
            cases heq; rfl
        simp only [hpm, hum, hp, hu, List.filter_cons, Effect.isSectionMarker, if_true,
          List.filter_append, hnm, List.nil_append, List.length_cons]
        refine ⟨by omega, by omega, by omega, by omega, fun _ => by omega, by omega⟩
    · have ih2 := ih (i + 1) tasksLeft
      simp only at ih2
      obtain ⟨i1, i2, i3, i4, i5, i6⟩ := ih2
      rw [sectionLoop, if_neg hm]
      simp only [pendingFor_cons, undone_cons, if_neg hm]
      refine ⟨by omega, by omega, by omega, by omega,
        fun h => by have := i5 (by omega); omega, by omega⟩

theorem sectionLoop_nothing_pending (b : Behaviour) (targetId : JSVal) (t : Nat)
    (chapter : Chapter) (todo : List Section) (h0 : pendingFor targetId todo = 0) :
    ∀ (i : Nat) (tasksLeft : Int),
      sectionLoop b targetId t chapter i todo tasksLeft = ⟨todo, tasksLeft, [], false⟩ := by
  induction todo with
  | nil => intro i tasksLeft; rfl
  | cons element rest ih =>
    intro i tasksLeft
    rw [pendingFor_cons] at h0
    have hm : ¬ (element.subContentId.strictEq targetId && !element.taskDone) = true := by
      intro hm
      rw [if_pos hm] at h0
      omega
    rw [if_neg hm] at h0
    rw [sectionLoop, if_neg hm, ih (by omega)]

theorem getElem?_lt_length (chapters : List Chapter) (t : Nat) (c : Chapter)
    (h : chapters[t]? = some c) : t < chapters.length := by
  by_contra hn
  rw [List.getElem?_eq_none (by omega)] at h
  cases h

theorem setSectionStatusByID_state (b : Behaviour) (chapters : List Chapter) (targetId : JSVal)
    (t : Nat) (c : Chapter) (h : chapters[t]? = some c) :
    (setSectionStatusByID b chapters targetId t).state =
      chapters.set t
        { c with
          sectionInstances :=
            (sectionLoop b targetId t c 0 c.sectionInstances c.tasksLeft).sections,
          tasksLeft := (sectionLoop b targetId t c 0 c.sectionInstances c.tasksLeft).tasksLeft } := by
  simp [setSectionStatusByID, h]

theorem set_same (chapters : List Chapter) (t : Nat) (c : Chapter)
    (h : chapters[t]? = some c) : chapters.set t c = chapters := by
  induction chapters generalizing t with
  | nil => rfl
  | cons d ds ih =>
    cases t with
    | zero =>
      simp only [List.getElem?_cons_zero, Option.some.injEq] at h
      rw [List.set_cons_zero, h]
    | succ n =>
      simp only [List.getElem?_cons_succ] at h
      rw [List.set_cons_succ, ih n h]

theorem setSectionStatusByID_nothing_pending (b : Behaviour) (chapters : List Chapter)
    (targetId : JSVal) (t : Nat) (c : Chapter) (h : chapters[t]? = some c)
    (h0 : pendingFor targetId c.sectionInstances = 0) :
    (setSectionStatusByID b chapters targetId t).state = chapters ∧
    (setSectionStatusByID b chapters targetId t).trace = [] ∧
    (setSectionStatusByID b chapters targetId t).threw = false := by
  unfold setSectionStatusByID
  simp only [h]
  rw [sectionLoop_nothing_pending b targetId t c _ h0]
  exact ⟨set_same chapters t c h, rfl, rfl⟩

/-! ## C4: idempotent section completion -/

/-- C4 (counterexample): two not-yet-done sections of one chapter carry the same id; the
first call decrements `tasksLeft` by 2, not by 1. -/
theorem duplicate_id_decrements_twice :
    (setSectionStatusByID ⟨true, false⟩
        [⟨⟨.undef, none, none⟩, false, some 2, 2,
          [⟨.str "a", false⟩, ⟨.str "a", false⟩]⟩] (.str "a") 0).state =
      [⟨⟨.undef, none, none⟩, false, some 2, 0, [⟨.str "a", true⟩, ⟨.str "a", true⟩]⟩] ∧
    (setSectionStatusByID ⟨true, false⟩
        [⟨⟨.undef, none, none⟩, false, some 2, 2,
          [⟨.str "a", false⟩, ⟨.str "a", false⟩]⟩] (.str "a") 0).trace =
      [Effect.sectionMarker 0 0, Effect.sectionMarker 0 1] := by
  decide

/-- C4 (amended): when exactly one not-yet-done section of the chapter carries the id, the
first `setSectionStatusByID` call decrements `tasksLeft` by 1 and calls the section marker
once, and a second call with the same id and chapter changes nothing: same state, no
collaborator call, no error. -/
theorem section_completion_idempotent (b : Behaviour) (chapters : List Chapter)
    (targetId : JSVal) (targetChapter : Nat) (chapter : Chapter)
    (hch : chapters[targetChapter]? = some chapter)
    (hone : pendingFor targetId chapter.sectionInstances = 1) :
    (∃ after : Chapter,
      (setSectionStatusByID b chapters targetId targetChapter).state[targetChapter]? =
        some after ∧
      after.tasksLeft = chapter.tasksLeft - 1 ∧
      pendingFor targetId after.sectionInstances = 0 ∧
      ((setSectionStatusByID b chapters targetId targetChapter).trace.filter
        Effect.isSectionMarker).length = 1) ∧
    (setSectionStatusByID b
        (setSectionStatusByID b chapters targetId targetChapter).state targetId
        targetChapter).state =
      (setSectionStatusByID b chapters targetId targetChapter).state ∧
    (setSectionStatusByID b
        (setSectionStatusByID b chapters targetId targetChapter).state targetId
        targetChapter).trace = [] ∧
    (setSectionStatusByID b
        (setSectionStatusByID b chapters targetId targetChapter).state targetId
        targetChapter).threw = false := by
  have hlt := getElem?_lt_length chapters targetChapter chapter hch
  have hc := sectionLoop_counts b targetId targetChapter chapter chapter.sectionInstances 0
    chapter.tasksLeft
  simp only at hc
  obtain ⟨c1, _, _, _, c5, c6⟩ := hc
  have hp0 : pendingFor targetId
      (sectionLoop b targetId targetChapter chapter 0 chapter.sectionInstances
        chapter.tasksLeft).sections = 0 := by
    have := c5 (by omega)
    omega
  have hst := setSectionStatusByID_state b chapters targetId targetChapter chapter hch
  have hget : (setSectionStatusByID b chapters targetId targetChapter).state[targetChapter]? =
      some { chapter with
        sectionInstances :=
          (sectionLoop b targetId targetChapter chapter 0 chapter.sectionInstances
            chapter.tasksLeft).sections,
        tasksLeft :=
          (sectionLoop b targetId targetChapter chapter 0 chapter.sectionInstances
            chapter.tasksLeft).tasksLeft } := by
    rw [hst]
    simp [hlt]
  have htr : (setSectionStatusByID b chapters targetId targetChapter).trace =
      (sectionLoop b targetId targetChapter chapter 0 chapter.sectionInstances
        chapter.tasksLeft).trace := by
    simp [setSectionStatusByID, hch]
  have hnop := setSectionStatusByID_nothing_pending b
    (setSectionStatusByID b chapters targetId targetChapter).state targetId targetChapter _
    hget hp0
  refine ⟨⟨_, hget, ?_, hp0, ?_⟩, hnop⟩
  · simp only
    rw [hone, hp0] at c1
    push_cast at c1
    omega
  · rw [htr]
    omega

/-- Witness for C4 (amended): chapter 1 has two tasks `A` and `B`; completing `A` twice
leaves one task. -/
theorem section_completion_idempotent_witness :
    (setSectionStatusByID ⟨true, true⟩
      (setSectionStatusByID ⟨true, true⟩
        [⟨⟨.undef, some 0, some 1⟩, false, none, 0, []⟩,
         ⟨⟨.undef, some 0, some 2⟩, false, some 2, 2,
           [⟨.str "A", false⟩, ⟨.str "B", false⟩]⟩] (.str "A") 1).state (.str "A") 1).trace
      = [] :=
  (section_completion_idempotent ⟨true, true⟩
    [⟨⟨.undef, some 0, some 1⟩, false, none, 0, []⟩,
     ⟨⟨.undef, some 0, some 2⟩, false, some 2, 2,
       [⟨.str "A", false⟩, ⟨.str "B", false⟩]⟩] (.str "A") 1
    ⟨⟨.undef, some 0, some 2⟩, false, some 2, 2, [⟨.str "A", false⟩, ⟨.str "B", false⟩]⟩
    (by decide) (by decide)).2.2.1

/-! ## C8: task-count invariant -/

theorem advancedTo_refl (c : Chapter) : c.advancedTo c := ⟨rfl, rfl, le_refl _⟩

theorem advancedTo_trans (c d e : Chapter) (h1 : c.advancedTo d) (h2 : d.advancedTo e) :
    c.advancedTo e := by
  obtain ⟨a1, a2, a3⟩ := h1
  obtain ⟨b1, b2, b3⟩ := h2
  exact ⟨b1.trans a1, by omega, by omega⟩

theorem setSectionStatusByID_advances (b : Behaviour) (chapters : List Chapter)
    (targetId : JSVal) (t : Nat) (j : Nat) (c : Chapter) (hj : chapters[j]? = some c) :
    ∃ d, (setSectionStatusByID b chapters targetId t).state[j]? = some d ∧ c.advancedTo d := by
  cases ht : chapters[t]? with
  | none =>
    refine ⟨c, ?_, advancedTo_refl c⟩
    simp [setSectionStatusByID, ht, hj]
  | some ct =>
    rw [setSectionStatusByID_state b chapters targetId t ct ht]
    by_cases hjt : t = j
    · subst hjt
      have hlt := getElem?_lt_length chapters t ct ht
      have hcc : ct = c := by
        rw [ht] at hj
        exact Option.some.inj hj
      subst hcc
      have hc := sectionLoop_counts b targetId t ct ct.sectionInstances 0 ct.tasksLeft
      simp only at hc
      obtain ⟨_, c2, _, c4, _, _⟩ := hc
      refine ⟨{ ct with
          sectionInstances :=
            (sectionLoop b targetId t ct 0 ct.sectionInstances ct.tasksLeft).sections,
          tasksLeft := (sectionLoop b targetId t ct 0 ct.sectionInstances ct.tasksLeft).tasksLeft },
        by simp [hlt], rfl, ?_, ?_⟩
      · simp only
        omega
      · exact c4
    · refine ⟨c, ?_, advancedTo_refl c⟩
      rw [List.getElem?_set_ne hjt]
      exact hj

theorem runCompletions_advances (b : Behaviour) (calls : List (JSVal × Nat)) :
    ∀ (chapters : List Chapter) (j : Nat) (c : Chapter), chapters[j]? = some c →
      ∃ d, (runCompletions b chapters calls)[j]? = some d ∧ c.advancedTo d := by
  induction calls with
  | nil =>
    intro chapters j c hj
    exact ⟨c, hj, advancedTo_refl c⟩
  | cons call rest ih =>
    intro chapters j c hj
    obtain ⟨d, hd, hcd⟩ := setSectionStatusByID_advances b chapters call.1 call.2 j c hj
    obtain ⟨e, he, hde⟩ := ih _ j d hd
    exact ⟨e, he, advancedTo_trans c d e hcd hde⟩

/-- C8 (counterexample): a chapter with `maxTasks = 1` and `tasksLeft = 0`, so that
`0 <= tasksLeft <= maxTasks`, but with a section not yet done; the call leaves
`tasksLeft = -1`. -/
theorem tasksLeft_can_go_negative :
    (0 : Int) ≤ 0 ∧ (0 : Int) ≤ 1 ∧
    (setSectionStatusByID ⟨true, false⟩
        [⟨⟨.undef, none, none⟩, false, some 1, 0, [⟨.str "a", false⟩]⟩] (.str "a") 0).state =
      [⟨⟨.undef, none, none⟩, false, some 1, -1, [⟨.str "a", true⟩]⟩] := by
  decide

/-- C8 (amended): for a chapter with numeric `maxTasks` whose not-yet-done sections number
at most `tasksLeft`, and `tasksLeft <= maxTasks`, any sequence of `setSectionStatusByID`
calls (any ids, any target chapters) leaves `maxTasks` unchanged, keeps
`0 <= tasksLeft <= maxTasks` and the bound on the not-yet-done sections, and never
increases `tasksLeft`. -/
theorem task_count_invariant (b : Behaviour) (chapters : List Chapter)
    (calls : List (JSVal × Nat)) (j : Nat) (chapter : Chapter) (maxTasks : Int)
    (hj : chapters[j]? = some chapter) (hmax : chapter.maxTasks = some maxTasks)
    (hlow : (undone chapter.sectionInstances : Int) ≤ chapter.tasksLeft)
    (hhigh : chapter.tasksLeft ≤ maxTasks) :
    ∃ after : Chapter, (runCompletions b chapters calls)[j]? = some after ∧
      after.maxTasks = some maxTasks ∧
      0 ≤ after.tasksLeft ∧ after.tasksLeft ≤ maxTasks ∧
      (undone after.sectionInstances : Int) ≤ after.tasksLeft ∧
      after.tasksLeft ≤ chapter.tasksLeft := by
  obtain ⟨d, hd, h1, h2, h3⟩ := runCompletions_advances b calls chapters j chapter hj
  refine ⟨d, hd, h1.trans hmax, ?_, ?_, ?_, ?_⟩ <;> omega

/-- Witness for C8 (amended): a chapter with two tasks receives the completion of `A`
twice, of an unknown id, and of `B`. -/
theorem task_count_invariant_witness :
    ∃ after : Chapter,
      (runCompletions ⟨true, false⟩
        [⟨⟨.undef, none, none⟩, false, some 2, 2, [⟨.str "A", false⟩, ⟨.str "B", false⟩]⟩]
        [(.str "A", 0), (.str "A", 0), (.str "zz", 0), (.str "B", 0)])[0]? = some after ∧
      after.maxTasks = some 2 ∧ 0 ≤ after.tasksLeft ∧ after.tasksLeft ≤ 2 ∧
      (undone after.sectionInstances : Int) ≤ after.tasksLeft ∧ after.tasksLeft ≤ 2 :=
  task_count_invariant ⟨true, false⟩
    [⟨⟨.undef, none, none⟩, false, some 2, 2, [⟨.str "A", false⟩, ⟨.str "B", false⟩]⟩]
    [(.str "A", 0), (.str "A", 0), (.str "zz", 0), (.str "B", 0)] 0
    ⟨⟨.undef, none, none⟩, false, some 2, 2, [⟨.str "A", false⟩, ⟨.str "B", false⟩]⟩ 2
    (by decide) rfl (by decide) (by decide)

/-! ## Objects and strings: auxiliary lemmas -/

theorem get_set_same (o : JSObject) (k : String) (v : JSVal) : (o.set k v).get k = v := by
  induction o with
  | nil => simp [JSObject.set, JSObject.get]
  | cons q o ih =>
    obtain ⟨k0, w⟩ := q
    by_cases h : k0 = k
    · simp [JSObject.set, JSObject.get, h]
    · simp [JSObject.set, JSObject.get, h, ih]

theorem get_set_ne (o : JSObject) (k key : String) (v : JSVal) (hne : k ≠ key) :
    (o.set k v).get key = o.get key := by
  induction o with
  | nil => simp [JSObject.set, JSObject.get, hne]
  | cons q o ih =>
    obtain ⟨k0, w⟩ := q
    by_cases h : k0 = k
    · subst h
      simp [JSObject.set, JSObject.get, hne]
    · by_cases h2 : k0 = key
      · subst h2
        simp [JSObject.set, JSObject.get, h]
      · simp [JSObject.set, JSObject.get, h, h2, ih]

theorem stampRequest_get (data : JSObject) (key : String)
    (h1 : key ≠ "redirectFromComponent") (h2 : key ≠ "newHash") :
    (stampRequest data).get key = data.get key := by
  unfold stampRequest
  simp only
  rw [get_set_ne _ _ _ _ (Ne.symm h2), get_set_ne _ _ _ _ (Ne.symm h1)]

theorem stampRequest_newHash (data : JSObject) :
    (stampRequest data).get "newHash" =
      JSVal.str (buildNewHash (data.set "redirectFromComponent" (.bool true))) := by
  unfold stampRequest
  simp only
  rw [get_set_same]

theorem buildNewHash_data (o : JSObject) :
    (buildNewHash o).data =
      '#' :: ("h5pbookid=".data ++ (o.get "h5pbookid").toStr.data ++
        ("&chapter=".data ++ (o.get "chapter").toStr.data ++
          (if o.get "section" = JSVal.undef then []
           else "&section=".data ++ (o.get "section").toStr.data))) := by
  unfold buildNewHash
  simp only [String.data_append]
  split <;> simp [String.data_append]

theorem assignHash_buildNewHash (o : JSObject) :
    assignHash (buildNewHash o) = buildNewHash o := by
  unfold assignHash
  rw [buildNewHash_data]
  simp

/-! ## C5: request for the active chapter -/

theorem newChapter_same_chapter (st : Controller) (data : JSObject)
    (hidle : st.animationInProgress = false)
    (hsame : data.get "chapter" = JSVal.num st.activeChapter) :
    newChapter st data =
      match isCurrentHashSameAsRedirect st.hash (stampRequest data) with
      | none => ⟨{ st with newHandler := stampRequest data }, [], true⟩
      | some true =>
        ⟨{ st with newHandler := stampRequest data },
          [Effect.pageChangeChapter false (stampRequest data)], false⟩
      | some false =>
        changeHash { st with newHandler := stampRequest data } (stampRequest data) := by
  have hch : (stampRequest data).get "chapter" = JSVal.num st.activeChapter := by
    rw [stampRequest_get data "chapter" (by decide) (by decide), hsame]
  unfold newChapter
  simp [hidle, hch, JSVal.strictEq]

/-- C5 (counterexample): the active chapter is 1 and the hash is
`#h5pbookid=42&chapter=1&section=3`; a request for chapter 1, section 5 with book id 7
reaches the controller of book 42.  The decoded hash differs from the request, yet no
hash is written (and no page-content call is made). -/
theorem foreign_request_writes_no_hash :
    sameNavigationFields (retrieveHashFromUrl "#h5pbookid=42&chapter=1&section=3")
      [("h5pbookid", .num 7), ("chapter", .num 1), ("section", .num 5)] = false ∧
    (newChapter ⟨.num 42, 1, [], false, "#h5pbookid=42&chapter=1&section=3", ⟨true, true⟩, []⟩
      [("h5pbookid", .num 7), ("chapter", .num 1), ("section", .num 5)]).state.hash =
      "#h5pbookid=42&chapter=1&section=3" ∧
    (newChapter ⟨.num 42, 1, [], false, "#h5pbookid=42&chapter=1&section=3", ⟨true, true⟩, []⟩
      [("h5pbookid", .num 7), ("chapter", .num 1), ("section", .num 5)]).trace = [] := by
  decide

/-- The comparison of `isCurrentHashSameAsRedirect` runs over the keys of the current hash
only: with the hash `#h5pbookid=42&chapter=1`, or with an empty hash, a request for
chapter 1, section 5 counts as "same" and the hash is left without the section. -/
theorem hash_comparison_one_sided :
    isCurrentHashSameAsRedirect "#h5pbookid=42&chapter=1"
      (stampRequest [("h5pbookid", .num 42), ("chapter", .num 1), ("section", .num 5)]) =
      some true ∧
    isCurrentHashSameAsRedirect ""
      (stampRequest [("h5pbookid", .num 42), ("chapter", .num 1), ("section", .num 5)]) =
      some true ∧
    (newChapter ⟨.num 42, 1, [], false, "#h5pbookid=42&chapter=1", ⟨true, true⟩, []⟩
      [("h5pbookid", .num 42), ("chapter", .num 1), ("section", .num 5)]).state.hash =
      "#h5pbookid=42&chapter=1" := by
  decide

/-- Reads through the prototype chain and the call of a shadowed `hasOwnProperty`: the
hash `#h5pbookid=42&chapter=1&constructor` is not the same as a request for book 42,
chapter 1 (the request inherits a `constructor`), and the hash `#hasOwnProperty=1` makes
the comparison raise. -/
theorem hash_comparison_prototype_keys :
    isCurrentHashSameAsRedirect "#h5pbookid=42&chapter=1&constructor"
      (stampRequest [("h5pbookid", .num 42), ("chapter", .num 1)]) = some false ∧
    isCurrentHashSameAsRedirect "#hasOwnProperty=1"
      (stampRequest [("h5pbookid", .num 42), ("chapter", .num 1)]) = none ∧
    (newChapter ⟨.num 42, 1, [], false, "#hasOwnProperty=1", ⟨true, true⟩, []⟩
      [("h5pbookid", .num 42), ("chapter", .num 1)]).threw = true := by
  decide

/-- C5 (amended): for a `newChapter` request whose chapter is the active chapter, with no
animation in progress.  If the decoded current hash has a key `hasOwnProperty`, the
handler raises a `TypeError`: nothing is called and no hash is written.  Otherwise the
handler only calls `pageContent.changeChapter(false, request)` and leaves the hash alone
exactly when every key of the decoded current hash carries a value `==` to the property
the marked request has under that key; and when some key carries a value `!=` to it, no
page-content call is made and the `changeHash` handler runs, which writes the request's
new hash exactly when the request's `h5pbookid` is strictly equal to `contentId`. -/
theorem same_chapter_request (st : Controller) (data : JSObject)
    (hidle : st.animationInProgress = false)
    (hsame : data.get "chapter" = JSVal.num st.activeChapter) :
    ("hasOwnProperty" ∈ (retrieveHashFromUrl st.hash).keys →
      (newChapter st data).threw = true ∧ (newChapter st data).trace = [] ∧
      (newChapter st data).state.hash = st.hash) ∧
    ("hasOwnProperty" ∉ (retrieveHashFromUrl st.hash).keys →
      ((∀ key ∈ (retrieveHashFromUrl st.hash).keys,
          ((retrieveHashFromUrl st.hash).get key).looseEqProperty
            ((stampRequest data).lookup key) = true) →
        (newChapter st data).trace = [Effect.pageChangeChapter false (stampRequest data)] ∧
        (newChapter st data).state.hash = st.hash ∧
        (newChapter st data).threw = false) ∧
      ((∃ key ∈ (retrieveHashFromUrl st.hash).keys,
          ((retrieveHashFromUrl st.hash).get key).looseEqProperty
            ((stampRequest data).lookup key) = false) →
        (newChapter st data).trace.any Effect.isPageCall = false ∧
        (newChapter st data).threw = false ∧
        (data.get "h5pbookid" = st.contentId →
          (newChapter st data).state.hash =
            buildNewHash (data.set "redirectFromComponent" (.bool true)) ∧
          (newChapter st data).trace =
            [Effect.hashWrite
              (.str (buildNewHash (data.set "redirectFromComponent" (.bool true))))]) ∧
        (data.get "h5pbookid" ≠ st.contentId →
          (newChapter st data).state.hash = st.hash ∧ (newChapter st data).trace = []))) := by
  have hnc := newChapter_same_chapter st data hidle hsame
  refine ⟨?_, ?_⟩
  · intro hown
    have hr : isCurrentHashSameAsRedirect st.hash (stampRequest data) = none := by
      simp [isCurrentHashSameAsRedirect, hown]
    rw [hnc, hr]
    exact ⟨rfl, rfl, rfl⟩
  · intro hown
    have hr : isCurrentHashSameAsRedirect st.hash (stampRequest data) =
        some ((retrieveHashFromUrl st.hash).keys.all (fun key =>
          ((retrieveHashFromUrl st.hash).get key).looseEqProperty
            ((stampRequest data).lookup key))) := by
      simp [isCurrentHashSameAsRedirect, hown]
    refine ⟨?_, ?_⟩
    · intro hall
      have hb : (retrieveHashFromUrl st.hash).keys.all (fun key =>
          ((retrieveHashFromUrl st.hash).get key).looseEqProperty
            ((stampRequest data).lookup key)) = true := by
        simp only [List.all_eq_true]
        exact hall
      rw [hnc, hr, hb]
      exact ⟨rfl, rfl, rfl⟩
    · rintro ⟨key, hkey, hne⟩
      have hb : (retrieveHashFromUrl st.hash).keys.all (fun key =>
          ((retrieveHashFromUrl st.hash).get key).looseEqProperty
            ((stampRequest data).lookup key)) = false := by
        cases hc : (retrieveHashFromUrl st.hash).keys.all (fun key =>
          ((retrieveHashFromUrl st.hash).get key).looseEqProperty
            ((stampRequest data).lookup key))
        · rfl
        · simp only [List.all_eq_true] at hc
          rw [hc key hkey] at hne
          cases hne
      rw [hnc, hr, hb]
      have hidv : (stampRequest data).get "h5pbookid" = data.get "h5pbookid" :=
        stampRequest_get data "h5pbookid" (by decide) (by decide)
      simp only
      unfold changeHash
      rw [hidv, stampRequest_newHash]
      by_cases hg : data.get "h5pbookid" = st.contentId
      · simp [JSVal.strictEq, hg, Effect.isPageCall, JSVal.toStr, assignHash_buildNewHash]
      · simp [JSVal.strictEq, hg, Effect.isPageCall]

/-- Witness for C5 (amended): the active chapter is 1 and the hash already encodes chapter
1, section 5 (in another key order); the request for chapter 1, section 5 only jumps. -/
theorem same_chapter_request_witness :
    (newChapter ⟨.num 42, 1, [], false, "#section=5&chapter=1&h5pbookid=42", ⟨true, true⟩, []⟩
      [("h5pbookid", .num 42), ("chapter", .num 1), ("section", .num 5)]).state.hash =
      "#section=5&chapter=1&h5pbookid=42" :=
  (((same_chapter_request
    ⟨.num 42, 1, [], false, "#section=5&chapter=1&h5pbookid=42", ⟨true, true⟩, []⟩
    [("h5pbookid", .num 42), ("chapter", .num 1), ("section", .num 5)] rfl rfl).2
    (by decide)).1 (by decide)).2.1

/-! ## C2: round trip of the hash codec -/

theorem splitAt_no_sep (sep : Char) (l : List Char) (h : sep ∉ l) :
    splitAt sep l = (l, []) := by
  induction l with
  | nil => rfl
  | cons c cs ih =>
    have hc : c ≠ sep := fun hc => h (by simp [hc])
    have hcs : sep ∉ cs := fun hm => h (List.mem_cons_of_mem _ hm)
    simp [splitAt, hc, ih hcs]

theorem splitAt_append_sep (sep : Char) (a b : List Char) (h : sep ∉ a) :
    splitAt sep (a ++ sep :: b) = (a, splitPieces sep b) := by
  induction a with
  | nil => simp [splitAt, splitPieces]
  | cons c cs ih =>
    have hc : c ≠ sep := fun hc => h (by simp [hc])
    have hcs : sep ∉ cs := fun hm => h (List.mem_cons_of_mem _ hm)
    simp [splitAt, hc, ih hcs]

theorem digitChar_not_separator (n : Nat) :
    Nat.digitChar (n % 10) ≠ '&' ∧ Nat.digitChar (n % 10) ≠ '=' := by
  have h : n % 10 < 10 := Nat.mod_lt _ (by decide)
  generalize n % 10 = d at h
  interval_cases d <;> decide

theorem toDigitsCore_not_separator (fuel : Nat) :
    ∀ (n : Nat) (ds : List Char), (∀ c ∈ ds, c ≠ '&' ∧ c ≠ '=') →
      ∀ c ∈ Nat.toDigitsCore 10 fuel n ds, c ≠ '&' ∧ c ≠ '=' := by
  induction fuel with
  | zero =>
    intro n ds hds c hc
    exact hds c hc
  | succ f ih =>
    intro n ds hds c hc
    have hcons : ∀ c ∈ Nat.digitChar (n % 10) :: ds, c ≠ '&' ∧ c ≠ '=' := by
      intro c hc
      rcases List.mem_cons.1 hc with h | h
      · rw [h]; exact digitChar_not_separator n
      · exact hds c h
    simp only [Nat.toDigitsCore] at hc
    split at hc
    · exact hcons c hc
    · exact ih _ _ hcons c hc

theorem toStr_not_separator (v : JSVal) (hv : separatorFree v) :
    '&' ∉ v.toStr.data ∧ '=' ∉ v.toStr.data := by
  cases v with
  | undef => decide
  | null => decide
  | bool b => cases b <;> decide
  | str s => exact hv
  | num n =>
    have hd : ∀ m : Nat, ∀ c ∈ Nat.toDigits 10 m, c ≠ '&' ∧ c ≠ '=' := by
      intro m
      exact toDigitsCore_not_separator (m + 1) m [] (by simp)
    cases n with
    | ofNat m =>
      simp only [JSVal.toStr, intToString]
      exact ⟨fun h => (hd m _ h).1 rfl, fun h => (hd m _ h).2 rfl⟩
    | negSucc m =>
      simp only [JSVal.toStr, intToString]
      constructor
      · intro h
        rcases List.mem_cons.1 h with h1 | h1
        · exact absurd h1 (by decide)
        · exact (hd (m + 1) _ h1).1 rfl
      · intro h
        rcases List.mem_cons.1 h with h1 | h1
        · exact absurd h1 (by decide)
        · exact (hd (m + 1) _ h1).2 rfl

theorem assignPair_key_value (o : JSObject) (key value : List Char)
    (hk : '=' ∉ key) (hv : '=' ∉ value) (hp : String.mk key ≠ "__proto__") :
    assignPair o (key ++ '=' :: value) = o.set (String.mk key) (.str (String.mk value)) := by
  unfold assignPair
  rw [splitAt_append_sep '=' key value hk]
  simp [splitPieces, splitAt_no_sep '=' value hv, hp]

theorem not_mem_key_append (sep : Char) (key value : List Char) (hk : sep ∉ key)
    (hne : sep ≠ '=') (hv : sep ∉ value) : sep ∉ key ++ '=' :: value := by
  intro h
  rcases List.mem_append.1 h with h | h
  · exact hk h
  · rcases List.mem_cons.1 h with h | h
    · exact hne h
    · exact hv h

theorem decode_two_fields (A B : List Char) (a1 : '&' ∉ A) (a2 : '=' ∉ A)
    (b1 : '&' ∉ B) (b2 : '=' ∉ B) :
    List.foldl assignPair []
      (splitPieces '&'
        ((['h', '5', 'p', 'b', 'o', 'o', 'k', 'i', 'd'] ++ '=' :: A) ++
          '&' :: (['c', 'h', 'a', 'p', 't', 'e', 'r'] ++ '=' :: B))) =
      [("h5pbookid", JSVal.str (String.mk A)), ("chapter", JSVal.str (String.mk B))] := by
  have hA := not_mem_key_append '&' ['h', '5', 'p', 'b', 'o', 'o', 'k', 'i', 'd'] A
    (by decide) (by decide) a1
  have hB := not_mem_key_append '&' ['c', 'h', 'a', 'p', 't', 'e', 'r'] B
    (by decide) (by decide) b1
  rw [splitPieces, splitAt_append_sep '&' _ _ hA]
  simp only [splitPieces, splitAt_no_sep '&' _ hB, List.foldl_cons, List.foldl_nil]
  rw [assignPair_key_value [] _ A (by decide) a2 (by decide),
    assignPair_key_value _ _ B (by decide) b2 (by decide)]
  have k12 : String.mk ['h', '5', 'p', 'b', 'o', 'o', 'k', 'i', 'd'] ≠
      String.mk ['c', 'h', 'a', 'p', 't', 'e', 'r'] := by decide
  simp only [JSObject.set, if_neg k12]

theorem decode_three_fields (A B C : List Char) (a1 : '&' ∉ A) (a2 : '=' ∉ A)
    (b1 : '&' ∉ B) (b2 : '=' ∉ B) (c1 : '&' ∉ C) (c2 : '=' ∉ C) :
    List.foldl assignPair []
      (splitPieces '&'
        ((['h', '5', 'p', 'b', 'o', 'o', 'k', 'i', 'd'] ++ '=' :: A) ++
          '&' :: ((['c', 'h', 'a', 'p', 't', 'e', 'r'] ++ '=' :: B) ++
            '&' :: (['s', 'e', 'c', 't', 'i', 'o', 'n'] ++ '=' :: C)))) =
      [("h5pbookid", JSVal.str (String.mk A)), ("chapter", JSVal.str (String.mk B)),
       ("section", JSVal.str (String.mk C))] := by
  have hA := not_mem_key_append '&' ['h', '5', 'p', 'b', 'o', 'o', 'k', 'i', 'd'] A
    (by decide) (by decide) a1
  have hB := not_mem_key_append '&' ['c', 'h', 'a', 'p', 't', 'e', 'r'] B
    (by decide) (by decide) b1
  have hC := not_mem_key_append '&' ['s', 'e', 'c', 't', 'i', 'o', 'n'] C
    (by decide) (by decide) c1
  rw [splitPieces, splitAt_append_sep '&' _ _ hA]
  simp only [splitPieces, splitAt_append_sep '&' _ _ hB, splitAt_no_sep '&' _ hC,
    List.foldl_cons, List.foldl_nil]
  rw [assignPair_key_value [] _ A (by decide) a2 (by decide),
    assignPair_key_value _ _ B (by decide) b2 (by decide),
    assignPair_key_value _ _ C (by decide) c2 (by decide)]
  have k12 : String.mk ['h', '5', 'p', 'b', 'o', 'o', 'k', 'i', 'd'] ≠
      String.mk ['c', 'h', 'a', 'p', 't', 'e', 'r'] := by decide
  have k13 : String.mk ['h', '5', 'p', 'b', 'o', 'o', 'k', 'i', 'd'] ≠
      String.mk ['s', 'e', 'c', 't', 'i', 'o', 'n'] := by decide
  have k23 : String.mk ['c', 'h', 'a', 'p', 't', 'e', 'r'] ≠
      String.mk ['s', 'e', 'c', 't', 'i', 'o', 'n'] := by decide
  simp only [JSObject.set, if_neg k12, if_neg k13, if_neg k23]

theorem retrieveHashFromUrl_buildNewHash (o : JSObject)
    (hid : separatorFree (o.get "h5pbookid")) (hch : separatorFree (o.get "chapter"))
    (hsec : separatorFree (o.get "section")) :
    retrieveHashFromUrl (buildNewHash o) =
      [("h5pbookid", JSVal.str (o.get "h5pbookid").toStr),
       ("chapter", JSVal.str (o.get "chapter").toStr)] ++
      (if o.get "section" = JSVal.undef then []
       else [("section", JSVal.str (o.get "section").toStr)]) := by
  obtain ⟨a1, a2⟩ := toStr_not_separator _ hid
  obtain ⟨b1, b2⟩ := toStr_not_separator _ hch
  obtain ⟨c1, c2⟩ := toStr_not_separator _ hsec
  unfold retrieveHashFromUrl
  rw [buildNewHash_data]
  have hrm : ∀ l : List Char, removeFirstHash ('#' :: l) = l := by
    intro l; simp [removeFirstHash]
  rw [hrm]
  by_cases hs : o.get "section" = JSVal.undef
  · rw [if_pos hs, if_pos hs, List.append_nil, List.append_nil]
    exact decode_two_fields _ _ a1 a2 b1 b2
  · rw [if_neg hs, if_neg hs]
    exact decode_three_fields _ _ _ a1 a2 b1 b2 c1 c2

/-- C2: for a request whose book id, chapter and section contain no separator of the
fragment format (numbers never do), decoding the hash that the `newChapter` handler
builds gives back the book id and the chapter as strings, and the section as a string
when the request has one; when it has none the decoded object has no `section` key. -/
theorem hash_round_trip (data : JSObject)
    (hid : separatorFree (data.get "h5pbookid")) (hch : separatorFree (data.get "chapter"))
    (hsec : separatorFree (data.get "section")) :
    ∃ newHash : String,
      (stampRequest data).get "newHash" = JSVal.str newHash ∧
      assignHash newHash = newHash ∧
      (retrieveHashFromUrl newHash).get "h5pbookid" = JSVal.str (data.get "h5pbookid").toStr ∧
      (retrieveHashFromUrl newHash).get "chapter" = JSVal.str (data.get "chapter").toStr ∧
      (data.get "section" = JSVal.undef → "section" ∉ (retrieveHashFromUrl newHash).keys) ∧
      (data.get "section" ≠ JSVal.undef →
        (retrieveHashFromUrl newHash).get "section" = JSVal.str (data.get "section").toStr) ∧
      (retrieveHashFromUrl newHash).keys =
        if data.get "section" = JSVal.undef then ["h5pbookid", "chapter"]
        else ["h5pbookid", "chapter", "section"] := by
  have g1 : (data.set "redirectFromComponent" (.bool true)).get "h5pbookid" =
      data.get "h5pbookid" := get_set_ne _ _ _ _ (by decide)
  have g2 : (data.set "redirectFromComponent" (.bool true)).get "chapter" =
      data.get "chapter" := get_set_ne _ _ _ _ (by decide)
  have g3 : (data.set "redirectFromComponent" (.bool true)).get "section" =
      data.get "section" := get_set_ne _ _ _ _ (by decide)
  have hdec := retrieveHashFromUrl_buildNewHash
    (data.set "redirectFromComponent" (.bool true))
    (by rw [g1]; exact hid) (by rw [g2]; exact hch) (by rw [g3]; exact hsec)
  rw [g1, g2, g3] at hdec
  refine ⟨buildNewHash (data.set "redirectFromComponent" (.bool true)),
    stampRequest_newHash data, assignHash_buildNewHash _, ?_, ?_, ?_, ?_, ?_⟩
  · rw [hdec]; simp [JSObject.get]
  · rw [hdec]; simp [JSObject.get]
  · intro hs
    rw [hdec, if_pos hs]
    simp [JSObject.keys]
  · intro hs
    rw [hdec, if_neg hs]
    simp [JSObject.get]
  · rw [hdec]
    split <;> rfl

/-- Witness for C2: the request for book 42, chapter 2, section 5. -/
theorem hash_round_trip_witness :
    ∃ newHash : String,
      (stampRequest [("h5pbookid", .num 42), ("chapter", .num 2), ("section", .num 5)]).get
        "newHash" = JSVal.str newHash ∧
      assignHash newHash = newHash ∧
      (retrieveHashFromUrl newHash).get "h5pbookid" = JSVal.str "42" ∧
      (retrieveHashFromUrl newHash).get "chapter" = JSVal.str "2" ∧
      (retrieveHashFromUrl newHash).get "section" = JSVal.str "5" := by
  obtain ⟨newHash, h1, h2, h3, h4, _, h6, _⟩ :=
    hash_round_trip [("h5pbookid", .num 42), ("chapter", .num 2), ("section", .num 5)]
      trivial trivial trivial
  exact ⟨newHash, h1, h2, h3, h4, h6 (by decide)⟩

end DigiBook
